import Mathlib

/-!
# Verification of the PDF2Audio script-parsing and audio-assembly pipeline

This file gives a shallow embedding of the two source files of the repository:

* `11labs.py` — the "simple mode" pipeline: `parse_line`, `make_casts`,
  `get_next_file_number`, the `cast_to_voice` global assignment, and `generate`;
* `app2.py` — the "strict mode" pipeline: `read_text_file` (with a pre-supplied
  speaker list), `get_next_file_number` (identical code) and `generate_audio`.

Strings are modelled as `List Char`.  Python's `str.strip`/`str.split` are
modelled over the ASCII whitespace characters that can occur in text lines
(space, tab, newline, carriage return, vertical tab, form feed).  Byte strings
are modelled as `List Nat`.  The filesystem directory that a run writes into is
modelled as an association list from file name to file content, with
`dictUpdate` as the write-a-file operation (overwrite if the name exists,
append otherwise) — exactly the observable effect of `open(path, 'wb')`.
The remote text-to-speech service is external; it is modelled as an oracle
`tts : Nat → Option (List Nat)` giving, per utterance position, either the
byte string the fully drained response produced or `none` when the call raises.
-/

namespace PDF2A

/-- A text string, modelled as its list of characters. -/
abbrev Str := List Char

/-- The whitespace characters stripped by Python's `str.strip()` /
`str.split()` (restricted to the ASCII range; the scripts are plain text). -/
def pyWs (c : Char) : Bool :=
  c = ' ' || c = '\t' || c = '\n' || c = '\r' || c = '\x0b' || c = '\x0c'

/-- Python `str.strip()`: drop whitespace from both ends. -/
def strip (s : Str) : Str :=
  ((s.dropWhile pyWs).reverse.dropWhile pyWs).reverse

/-- Auxiliary splitter: cut a string at every whitespace character, keeping the
(possibly empty) segments between them. -/
def splitWsAux : Str → List Str
  | [] => [[]]
  | c :: rest =>
    if pyWs c then [] :: splitWsAux rest
    else
      match splitWsAux rest with
      | [] => [[c]]
      | w :: ws => (c :: w) :: ws

/-- Python `str.split()` with no argument: the maximal runs of non-whitespace
characters. -/
def words (s : Str) : List Str :=
  (splitWsAux s).filter (· ≠ [])

/-- Python `' '.join(ws)`. -/
def joinSp : List Str → Str
  | [] => []
  | [w] => w
  | w :: ws => w ++ ' ' :: joinSp ws

/-- Python `', '.join(ws)`. -/
def joinCS : List Str → Str
  | [] => []
  | [w] => w
  | w :: ws => w ++ ',' :: ' ' :: joinCS ws

/-- `' '.join(s.split())` — collapse every whitespace run to a single space and
drop leading/trailing whitespace (used on the cleaned utterance text in
`parse_line`). -/
def collapseWs (s : Str) : Str :=
  joinSp (words s)

/-! ### Decimal digits, for `f"{i:03d}"` formatting and the `(\d+)\.mp3$` scan -/

/-- The character of a single decimal digit. -/
def digitChar (d : Nat) : Char := Char.ofNat (48 + d)

/-- The numeric value of a decimal digit character. -/
def digitVal (c : Char) : Nat := c.toNat - 48

/-- Digit expansion with explicit fuel (structural recursion, so that the
kernel can evaluate file names on concrete inputs); `n + 1` fuel always
suffices since `n / 10 < n`. -/
def natDigitsAux : Nat → Nat → Str
  | 0, _ => []
  | fuel + 1, n =>
    if n < 10 then [digitChar n]
    else natDigitsAux fuel (n / 10) ++ [digitChar (n % 10)]

/-- The decimal digit characters of a natural number (most significant first),
as produced by Python's `str`/format conversions. -/
def natDigits (n : Nat) : Str := natDigitsAux (n + 1) n

/-- Reading a digit string back as a number (what Python's `int()` does on the
regex capture). -/
def parseDigits (s : Str) : Nat :=
  s.foldl (fun a c => 10 * a + digitVal c) 0

/-- Python `f"{n:03d}"`: the decimal digits of `n`, zero-padded on the left to
at least three characters. -/
def pad3 (n : Nat) : Str :=
  List.replicate (3 - (natDigits n).length) '0' ++ natDigits n

/-! ### `parse_line` from `11labs.py`

```python
def parse_line(line):
    speaker, text = line.split(':', 1)
    speaker = speaker.strip()
    text = text.strip()
    mood_matches = re.finditer(r'\((.*?)\)', text)
    moods = []
    for match in mood_matches:
        mood = match.group(1).strip()
        if mood:
            moods.append(mood)
    clean_text = re.sub(r'\s*\(.*?\)\s*', ' ', text)
    clean_text = ' '.join(clean_text.split())
    mood = ', '.join(moods) if moods else ""
    return speaker, clean_text, mood
```

`line.split(':', 1)` raises `ValueError` (unpacking) when the line has no
colon; this is modelled by `Option`.  The lazy pattern `\((.*?)\)` matches, at
each scan position, the first `'('` and runs to the first `')'` after it
(`.` also matches `'('`); `re.finditer` and `re.sub` find the same spans,
scanning left to right.  `re.sub` additionally absorbs the whitespace around
each span (`\s*...\s*`) into the single-space replacement; since the result is
immediately normalised by `' '.join(clean_text.split())`, absorbing or keeping
that adjacent whitespace yields the same final string, so the model replaces
exactly the parenthesised span by one space. -/

/-- Split a string at its first `':'` (Python `line.split(':', 1)` with exactly
one colon consumed); `none` when there is no colon. -/
def splitColon : Str → Option (Str × Str)
  | [] => none
  | c :: rest =>
    if c = ':' then some ([], rest)
    else (splitColon rest).map fun p => (c :: p.1, p.2)

/-- Split a string at its first `')'`: the part before it and the part after
it; `none` when there is no `')'`. -/
def splitAtClose : Str → Option (Str × Str)
  | [] => none
  | c :: rest =>
    if c = ')' then some ([], rest)
    else (splitAtClose rest).map fun p => (c :: p.1, p.2)

theorem splitAtClose_length : ∀ {l a b : Str}, splitAtClose l = some (a, b) → b.length < l.length := by
  intro l
  induction l with
  | nil => intro a b h; simp [splitAtClose] at h
  | cons c rest ih =>
    intro a b h
    by_cases hc : c = ')'
    · simp [splitAtClose, hc] at h
      simp [← h.2]
    · simp [splitAtClose, hc] at h
      obtain ⟨p, hp, hab⟩ := h
      have hlen := ih hp
      simp only [List.length_cons]
      omega

/-- One left-to-right scan collecting every lazy `\((.*?)\)` match: returns the
text with each matched span replaced by a single space, together with the list
of captured group contents in order of appearance.  A `'('` with no later
`')'` matches nothing and stays in the text. -/
def parseMoods : Str → Str × List Str
  | [] => ([], [])
  | c :: rest =>
    if c = '(' then
      match hsp : splitAtClose rest with
      | some cr =>
        let pr := parseMoods cr.2
        (' ' :: pr.1, cr.1 :: pr.2)
      | none => (c :: rest, [])
    else
      let pr := parseMoods rest
      (c :: pr.1, pr.2)
termination_by s => s.length
decreasing_by
  · exact Nat.lt_succ_of_lt (splitAtClose_length hsp)
  · simp

/-- `parse_line` from `11labs.py`: speaker before the first colon (stripped),
cleaned text (parenthesised spans removed, whitespace collapsed), and the
comma-space join of the non-empty stripped parenthetical captures. -/
def parse_line (line : Str) : Option (Str × Str × Str) :=
  (splitColon line).map fun p =>
    let text := strip p.2
    let pr := parseMoods text
    let moods := (pr.2.map strip).filter (· ≠ [])
    (strip p.1, collapseWs pr.1, joinCS moods)

/-! ### `make_casts` from `11labs.py` (simple-mode parsing)

```python
def make_casts(file):
    casts.clear(); __transcript.clear()
    with open(file_path, 'r', encoding='utf-8-sig') as file:
        for line in file:
            if line.startswith("\n") or line.startswith("#") or line.startswith("["):
                continue
            speaker, text, mood = parse_line(line)
            __transcript.append((speaker, text, mood))
            if speaker not in casts:
                casts.append(speaker)
```

File iteration yields each physical line with its trailing newline (the model
takes the list of those raw lines); `utf-8-sig` already removes a byte-order
mark.  The globals are cleared first, so the result is a function of the lines
alone; a `parse_line` failure (no colon) raises, modelled by `none`. -/

/-- One utterance of the transcript: `(speaker, text, mood)`. -/
structure Utterance where
  speaker : Str
  text : Str
  mood : Str
deriving DecidableEq

/-- Whether `make_casts` skips the line: first character `'\n'`, `'#'` or
`'['`. -/
def skipsLine (line : Str) : Bool :=
  line.head? = some '\n' || line.head? = some '#' || line.head? = some '['

/-- One `make_casts` loop iteration over the accumulated
`(transcript, casts)`. -/
def makeCastsStep (acc : Option (List Utterance × List Str)) (line : Str) :
    Option (List Utterance × List Str) :=
  match acc with
  | none => none
  | some (tr, cs) =>
    if skipsLine line then acc
    else
      match parse_line line with
      | none => none
      | some (sp, tx, md) =>
        some (tr ++ [⟨sp, tx, md⟩], if sp ∈ cs then cs else cs ++ [sp])

/-- `make_casts`: the transcript and cast list built from the raw file lines,
or `none` if some processed line has no colon. -/
def make_casts (lines : List Str) : Option (List Utterance × List Str) :=
  lines.foldl makeCastsStep (some ([], []))

/-! ### `read_text_file` from `app2.py` (strict-mode parsing)

```python
def read_text_file(file_path, speaker_names):
    dialogue = []; current_speaker = None; current_text = ""
    for line in file:
        if line.startswith('﻿'): line = line[1:]
        line = line.strip()
        if not line: continue
        speaker_match = False
        for speaker in speaker_names:
            if line.startswith(f"{speaker}:"):
                if current_speaker and current_text:
                    dialogue.append(DialogueItem(text=current_text.strip(), speaker=current_speaker))
                current_speaker = speaker
                current_text = line[len(speaker)+1:].strip()
                speaker_match = True
                break
        if not speaker_match:
            if current_speaker:
                current_text += " " + line
            else:
                current_speaker = speaker_names[0]
                current_text = line
    if current_speaker and current_text:
        dialogue.append(DialogueItem(text=current_text.strip(), speaker=current_speaker))
    return Dialogue(dialogue=dialogue)
```

Python truthiness: `if current_speaker` is false both for `None` and for the
empty string, and `if current_text` is false for the empty string; the model
keeps exactly that.  `speaker_names[0]` would raise on an empty list; the
model totalises it with `headD` (every caller passes six names). -/

structure DialogueItem where
  text : Str
  speaker : Str
deriving DecidableEq

/-- The in-progress parse: emitted dialogue, `current_speaker`
(`none` = Python `None`) and `current_text`. -/
structure ParseState where
  dialogue : List DialogueItem
  cur : Option Str
  txt : Str
deriving DecidableEq

/-- Python truthiness of `current_speaker`: not `None` and not empty. -/
def truthy (s : Option Str) : Bool :=
  match s with
  | none => false
  | some t => t ≠ []

/-- Drop a leading byte-order mark (`line.startswith('﻿')` check). -/
def bomStrip (l : Str) : Str :=
  match l with
  | [] => []
  | c :: rest => if c = '\uFEFF' then rest else c :: rest

/-- Emit the open utterance if both `current_speaker` and `current_text` are
truthy (the `if current_speaker and current_text` append). -/
def emitOpen (st : ParseState) : List DialogueItem :=
  if truthy st.cur ∧ st.txt ≠ [] then
    st.dialogue ++ [⟨strip st.txt, st.cur.getD []⟩]
  else st.dialogue

/-- One `read_text_file` loop iteration on one raw line. -/
def processLine (names : List Str) (st : ParseState) (line0 : Str) : ParseState :=
  let line := strip (bomStrip line0)
  if line = [] then st
  else
    match names.find? (fun s => (s ++ [':']).isPrefixOf line) with
    | some sp =>
      { dialogue := emitOpen st
        cur := some sp
        txt := strip (line.drop (sp.length + 1)) }
    | none =>
      if truthy st.cur then { st with txt := st.txt ++ ' ' :: line }
      else { st with cur := some (names.headD []), txt := line }

/-- `read_text_file`: fold the lines, then emit the last open utterance. -/
def read_text_file (names : List Str) (lines : List Str) : List DialogueItem :=
  emitOpen (lines.foldl (processLine names) ⟨[], none, []⟩)

/-! ### Association lists: Python dicts and the output directory

Both the `cast_to_voice` / `voices_dict` / `speaker_voices` dicts and the
output directory (file name ↦ file content) are key/value stores with
overwrite-or-append update (Python dicts preserve insertion order and keep the
position of an updated key; writing a file overwrites the content under an
existing name). -/

/-- Overwrite-or-append update of an association list. -/
def dictUpdate {β : Type} : List (Str × β) → Str → β → List (Str × β)
  | [], name, v => [(name, v)]
  | p :: rest, name, v =>
    if p.1 = name then (name, v) :: rest
    else p :: dictUpdate rest name v

/-- Lookup in an association list (`none` models a Python `KeyError` /
a missing file). -/
def dictLookup {β : Type} : List (Str × β) → Str → Option β
  | [], _ => none
  | p :: rest, k => if p.1 = k then some p.2 else dictLookup rest k

/-- The output directory: file name ↦ byte content. -/
abbrev Dir := List (Str × List Nat)

/-! ### Output file naming and `get_next_file_number`

```python
def get_next_file_number(directory):
    existing_files = [f for f in os.listdir(directory) if f.endswith('.mp3')]
    if not existing_files:
        return 1
    numbers = []
    for f in existing_files:
        match = re.search(r'(\d+)\.mp3$', f)
        if match:
            numbers.append(int(match.group(1)))
    return max(numbers) + 1 if numbers else 1
```

(The same function appears verbatim in both source files.)  The anchored
search `(\d+)\.mp3$` succeeds exactly when the name ends in at least one
decimal digit followed by `.mp3`, and the leftmost-longest capture is the
whole maximal digit run immediately before that final `.mp3`. -/

/-- The numeric suffix of a file name per `(\d+)\.mp3$` on an `.mp3`-filtered
name: the maximal trailing digit run before the final `.mp3`, if any. -/
def extractNumber (f : Str) : Option Nat :=
  if (".mp3".toList).isSuffixOf f then
    let stem := f.take (f.length - 4)
    let ds := (stem.reverse.takeWhile Char.isDigit).reverse
    if ds = [] then none else some (parseDigits ds)
  else none

/-- `get_next_file_number` over the directory listing. -/
def get_next_file_number (listing : List Str) : Nat :=
  let existing := listing.filter (fun f => (".mp3".toList).isSuffixOf f)
  if existing = [] then 1
  else
    let numbers := existing.filterMap extractNumber
    if numbers = [] then 1
    else numbers.foldl Nat.max 0 + 1

/-- `f"audio_chunk_{i:03d}.mp3"`. -/
def chunkName (i : Nat) : Str :=
  "audio_chunk_".toList ++ pad3 i ++ ".mp3".toList

/-- `f"result_audio_{n:03d}.mp3"` (the combined artifact of `11labs.py`). -/
def resultName (n : Nat) : Str :=
  "result_audio_".toList ++ pad3 n ++ ".mp3".toList

/-- `f"combined_audio_{n:03d}.mp3"` (the combined artifact of `app2.py`). -/
def combinedName (n : Nat) : Str :=
  "combined_audio_".toList ++ pad3 n ++ ".mp3".toList

/-! ### `generate` from `11labs.py`

```python
def generate(file, model, stability, similarity, exaggeration, boost, *voices):
    assert(__transcript)
    for i, v in enumerate(voices):
        cast_to_voice[casts[i]] = voices[i]
    assert(len(cast_to_voice) != 0)
    combined_audio = b""
    ...
    for i, line in enumerate(__transcript):
        speaker, text, mood = line
        voice_id = voices_dict[cast_to_voice[speaker]]
        ...
        chunk_name = f"audio_chunk_{i:03d}.mp3"
        stream = text_to_speech_stream(text, voice_id, model, chunk_path, voice_settings, ...)
        combined_audio += stream.getvalue()
    filename = f"result_audio_{get_next_file_number(output_directory):03d}.mp3"
    with open(file_path, 'wb') as f:
        f.write(combined_audio)
    return ...
```

`cast_to_voice` is a module-level dict that is never cleared; the assignment
loop is `assignVoices` below, applied to whatever the dict held before the
run.  `text_to_speech_stream` issues the remote call, drains the response and
only then writes the chunk file, so a failing call for utterance `i` leaves
chunk `i` unwritten; it is modelled by the oracle `tts` (`none` = the call
raised).  The voice-quality settings, model id and context hints do not
influence which files are written or how bytes are concatenated, so the
oracle abstracts over them by utterance position.  The transcript/printing
side channel is not modelled.  `GenState.calls` counts the synthesis calls
issued so far (including a final failing one). -/

/-- State of a generation run: the directory, the `combined_audio` buffer and
the number of synthesis calls issued. -/
structure GenState where
  dir : Dir
  combined : List Nat
  calls : Nat
deriving DecidableEq

/-- `for i, v in enumerate(voices): cast_to_voice[casts[i]] = voices[i]` —
update the (global, persistent) map with this run's assignments.  (Python
would raise `IndexError` if `voices` were longer than `casts`; the UI always
supplies exactly one voice per cast member, and `zip` truncates alike.) -/
def assignVoices (m : List (Str × Str)) (casts voices : List Str) : List (Str × Str) :=
  (casts.zip voices).foldl (fun m p => dictUpdate m p.1 p.2) m

/-- Whether `voices_dict[cast_to_voice[speaker]]` succeeds for an utterance. -/
def resolvesB (c2v vd : List (Str × Str)) (u : Utterance) : Bool :=
  match dictLookup c2v u.speaker with
  | none => false
  | some vn => (dictLookup vd vn).isSome

/-- The synthesis loop of `generate`: one utterance at a time, in order;
`i` is the `enumerate` index.  A failed dict lookup (`KeyError`) or a failed
synthesis call aborts with the state reached so far. -/
def runUtterances (tts : Nat → Option (List Nat)) (c2v vd : List (Str × Str)) :
    List Utterance → Nat → GenState → Except GenState GenState
  | [], _, st => .ok st
  | u :: rest, i, st =>
    match dictLookup c2v u.speaker with
    | none => .error st
    | some vn =>
      match dictLookup vd vn with
      | none => .error st
      | some _vid =>
        match tts i with
        | none => .error ⟨st.dir, st.combined, st.calls + 1⟩
        | some bytes =>
          runUtterances tts c2v vd rest (i + 1)
            ⟨dictUpdate st.dir (chunkName i) bytes, st.combined ++ bytes, st.calls + 1⟩

/-- `generate`: assert the transcript and the assignment dict are non-empty,
run the synthesis loop, then write the combined artifact under the next free
`result_audio_` number scanned from the directory.  `m0` is the content the
global `cast_to_voice` dict carries into the run. -/
def generate (tts : Nat → Option (List Nat)) (vd : List (Str × Str))
    (m0 : List (Str × Str)) (casts voices : List Str)
    (transcript : List Utterance) (dir0 : Dir) : Except GenState (Dir × Str) :=
  if transcript = [] then .error ⟨dir0, [], 0⟩
  else
    let c2v := assignVoices m0 casts voices
    if c2v = [] then .error ⟨dir0, [], 0⟩
    else
      match runUtterances tts c2v vd transcript 0 ⟨dir0, [], 0⟩ with
      | .error st => .error st
      | .ok st =>
        let fname := resultName (get_next_file_number (st.dir.map Prod.fst))
        .ok (dictUpdate st.dir fname st.combined, fname)

/-! ### `generate_audio` from `app2.py`

```python
    dialogue = read_text_file(file_path, speaker_names)
    combined_audio = b""
    for i, line in enumerate(dialogue.dialogue, start=1):
        voice = speaker_voices[line.speaker]
        audio_chunk = get_mp3(line.text, voice, audio_model, openai_api_key)
        combined_audio += audio_chunk
        ...
        chunk_filename = f"audio_chunk_{i:03d}.mp3"
        with open(chunk_path, 'wb') as f:
            f.write(audio_chunk)
    combined_filename = f"combined_audio_{get_next_file_number(temporary_directory):03d}.mp3"
    with open(combined_path, 'wb') as f:
        f.write(combined_audio)
```

Note `enumerate(..., start=1)`: the dialogue item at 0-based position `p`
is written as chunk `p + 1`.  The API-key and file-suffix guards before the
loop concern UI inputs and are not part of the synthesis loop modelled here. -/

/-- The synthesis loop of `generate_audio`; `p` is the 0-based position, the
chunk file gets index `p + 1`. -/
def runDialogue (tts : Nat → Option (List Nat)) (sv : List (Str × Str)) :
    List DialogueItem → Nat → GenState → Except GenState GenState
  | [], _, st => .ok st
  | d :: rest, p, st =>
    match dictLookup sv d.speaker with
    | none => .error st
    | some _v =>
      match tts p with
      | none => .error ⟨st.dir, st.combined, st.calls + 1⟩
      | some bytes =>
        runDialogue tts sv rest (p + 1)
          ⟨dictUpdate st.dir (chunkName (p + 1)) bytes, st.combined ++ bytes, st.calls + 1⟩

/-- `generate_audio`: run the loop over the parsed dialogue, then write the
combined artifact under the next free `combined_audio_` number. -/
def generate_audio (tts : Nat → Option (List Nat)) (sv : List (Str × Str))
    (dialogue : List DialogueItem) (dir0 : Dir) : Except GenState (Dir × Str) :=
  match runDialogue tts sv dialogue 0 ⟨dir0, [], 0⟩ with
  | .error st => .error st
  | .ok st =>
    let fname := combinedName (get_next_file_number (st.dir.map Prod.fst))
    .ok (dictUpdate st.dir fname st.combined, fname)

/-! ### Specification-side vocabulary for claim C2

A text "containing zero, one, or multiple parenthetical groups" is one that
decomposes into paren-free segments interleaved with `(`…`)` groups whose
bodies are paren-free; `renderScript` rebuilds the text from such a
decomposition, which the C2 theorem quantifies over. -/

/-- No parenthesis characters occur in the string. -/
def parenFree (s : Str) : Prop :=
  ∀ c ∈ s, c ≠ '(' ∧ c ≠ ')'

instance decParenFree (s : Str) : Decidable (parenFree s) := by
  unfold parenFree
  infer_instance

/-- Rebuild `(g₁)s₁(g₂)s₂…` from group bodies `gᵢ` and trailing segments
`sᵢ`. -/
def renderGroups : List (Str × Str) → Str
  | [] => []
  | (g, s) :: rest => '(' :: (g ++ ')' :: (s ++ renderGroups rest))

/-- Rebuild a full text from a leading segment and its groups. -/
def renderScript (s0 : Str) (gs : List (Str × Str)) : Str :=
  s0 ++ renderGroups gs

/-- The text with every parenthesized span removed (each span replaced by a
single space, as the whitespace-collapsing step then normalises). -/
def removeGroups (s0 : Str) (gs : List (Str × Str)) : Str :=
  s0 ++ (gs.map fun p => ' ' :: p.2).flatten

/-! ### Derived descriptions of a run's file writes (for the theorems below) -/

/-- The directory after the chunk writes of `n` consecutive loop iterations of
`generate`, starting at enumerate index `i` (utterance `i + j` is written
under `chunkName (i + j)`). -/
def writesFrom (bs : Nat → List Nat) : Nat → Nat → Dir → Dir
  | _, 0, d => d
  | i, n + 1, d => writesFrom bs (i + 1) n (dictUpdate d (chunkName i) (bs i))

/-- The directory after the chunk writes of `n` consecutive loop iterations of
`generate_audio` (the item at 0-based position `p` is written under
`chunkName (p + 1)`). -/
def writesFromA (bs : Nat → List Nat) : Nat → Nat → Dir → Dir
  | _, 0, d => d
  | p, n + 1, d => writesFromA bs (p + 1) n (dictUpdate d (chunkName (p + 1)) (bs p))

/-- The bytes of utterances `i, …, i+n-1` concatenated in utterance order. -/
def catFrom (bs : Nat → List Nat) : Nat → Nat → List Nat
  | _, 0 => []
  | i, n + 1 => bs i ++ catFrom bs (i + 1) n

/-! ## Lemmas about `strip` -/

theorem strip_eq_nil_iff {s : Str} : strip s = [] ↔ ∀ c ∈ s, pyWs c := by
  unfold strip
  rw [List.reverse_eq_nil_iff, List.dropWhile_eq_nil_iff]
  constructor
  · intro h c hc
    have hsplit : c ∈ s.takeWhile pyWs ++ s.dropWhile pyWs := by
      rw [List.takeWhile_append_dropWhile (p := pyWs)]
      exact hc
    rcases List.mem_append.mp hsplit with h1 | h1
    · exact List.mem_takeWhile_imp h1
    · exact h c (List.mem_reverse.mpr h1)
  · intro h c hc
    exact h c ((s.dropWhile_sublist pyWs).mem (List.mem_reverse.mp hc))

theorem prefix_head? {l₁ l₂ : List Char} (h : l₁ <+: l₂) (hne : l₁ ≠ []) :
    l₂.head? = l₁.head? := by
  obtain ⟨t, rfl⟩ := h
  cases l₁ with
  | nil => exact absurd rfl hne
  | cons c r => rfl

theorem strip_pre {s : Str} : strip s <+: s.dropWhile pyWs := by
  have hsuf : List.dropWhile pyWs (s.dropWhile pyWs).reverse <:+ (s.dropWhile pyWs).reverse :=
    List.dropWhile_suffix pyWs
  rw [← List.reverse_prefix] at hsuf
  unfold strip
  simpa using hsuf

theorem strip_head?_not_ws {s : Str} (h : strip s ≠ []) :
    ∃ c, (strip s).head? = some c ∧ pyWs c = false := by
  cases hc : (strip s).head? with
  | none => exact absurd (List.head?_eq_none_iff.mp hc) h
  | some c =>
    refine ⟨c, rfl, ?_⟩
    have hh : (s.dropWhile pyWs).head? = some c := (prefix_head? strip_pre h).trans hc
    have hnot := List.head?_dropWhile_not pyWs s
    rw [hh] at hnot
    exact hnot

theorem strip_reverse_dropWhile {s : Str} :
    (strip s).reverse = ((s.dropWhile pyWs).reverse).dropWhile pyWs := by
  unfold strip
  rw [List.reverse_reverse]

theorem strip_idem {s : Str} : strip (strip s) = strip s := by
  by_cases h : strip s = []
  · rw [h]; rfl
  · obtain ⟨c, hc, hws⟩ := strip_head?_not_ws h
    have h1 : (strip s).dropWhile pyWs = strip s := by
      cases hs : strip s with
      | nil => rfl
      | cons a r =>
        rw [hs] at hc
        simp only [List.head?_cons, Option.some.injEq] at hc
        subst hc
        exact List.dropWhile_cons_of_neg (by simp [hws])
    show (((strip s).dropWhile pyWs).reverse.dropWhile pyWs).reverse = strip s
    rw [h1, strip_reverse_dropWhile, List.dropWhile_idempotent,
      ← strip_reverse_dropWhile, List.reverse_reverse]

/-- A string whose strip is nonempty contains a non-whitespace character. -/
theorem exists_not_ws_of_strip_ne_nil {s : Str} (h : strip s ≠ []) :
    ∃ c ∈ s, pyWs c = false := by
  by_contra hall
  push_neg at hall
  exact h (strip_eq_nil_iff.mpr fun c hc => by
    have := hall c hc
    simpa using this)

theorem strip_ne_nil_of_mem {s : Str} {c : Char} (hc : c ∈ s) (hws : pyWs c = false) :
    strip s ≠ [] := by
  intro h
  rw [strip_eq_nil_iff] at h
  rw [h c hc] at hws
  simp at hws

/-- Stripping ignores surrounding material: appending to an already-stripped
nonempty string on the left keeps its trailing end; used via
`strip_append_ws_cons`. -/
theorem strip_append_ne_nil {a l : Str} (hl : strip l = l) (hne : l ≠ []) :
    strip (a ++ ' ' :: l) ≠ [] := by
  have hlne : strip l ≠ [] := by rw [hl]; exact hne
  obtain ⟨c, hcl, hws⟩ := exists_not_ws_of_strip_ne_nil hlne
  exact strip_ne_nil_of_mem (by simp [hcl]) hws

/-! ## Lemmas about `words`, `joinSp` and `collapseWs` -/

theorem splitWsAux_ne_nil {s : Str} : splitWsAux s ≠ [] := by
  cases s with
  | nil => simp [splitWsAux]
  | cons c rest =>
    rw [splitWsAux]
    split
    · simp
    · split <;> simp

theorem splitWsAux_mem {s : Str} : ∀ w ∈ splitWsAux s, ∀ c ∈ w, c ∈ s ∧ pyWs c = false := by
  induction s with
  | nil =>
    intro w hw c hc
    simp [splitWsAux] at hw
    subst hw
    simp at hc
  | cons a rest ih =>
    intro w hw c hc
    rw [splitWsAux] at hw
    by_cases ha : pyWs a
    · rw [if_pos ha] at hw
      rcases List.mem_cons.mp hw with h1 | h1
      · subst h1; simp at hc
      · obtain ⟨h2, h3⟩ := ih w h1 c hc
        exact ⟨List.mem_cons_of_mem a h2, h3⟩
    · rw [if_neg ha] at hw
      cases hsp : splitWsAux rest with
      | nil => exact absurd hsp splitWsAux_ne_nil
      | cons w0 ws =>
        rw [hsp] at hw
        rcases List.mem_cons.mp hw with h1 | h1
        · subst h1
          rcases List.mem_cons.mp hc with h2 | h2
          · subst h2; exact ⟨List.mem_cons_self c rest, by simpa using ha⟩
          · obtain ⟨h3, h4⟩ := ih w0 (hsp ▸ List.mem_cons_self w0 ws) c h2
            exact ⟨List.mem_cons_of_mem a h3, h4⟩
        · obtain ⟨h3, h4⟩ := ih w (hsp ▸ List.mem_cons_of_mem w0 h1) c hc
          exact ⟨List.mem_cons_of_mem a h3, h4⟩

theorem words_mem {s : Str} : ∀ w ∈ words s, w ≠ [] ∧ ∀ c ∈ w, c ∈ s ∧ pyWs c = false := by
  intro w hw
  rw [words, List.mem_filter] at hw
  exact ⟨by simpa using hw.2, fun c hc => splitWsAux_mem w hw.1 c hc⟩

theorem joinSp_cons₂ {w w2 : Str} {rest : List Str} :
    joinSp (w :: w2 :: rest) = w ++ ' ' :: joinSp (w2 :: rest) := rfl

theorem joinSp_mem {ws : List Str} : ∀ c ∈ joinSp ws, c = ' ' ∨ ∃ w ∈ ws, c ∈ w := by
  induction ws with
  | nil => intro c hc; simp [joinSp] at hc
  | cons w rest ih =>
    intro c hc
    cases rest with
    | nil =>
      simp only [joinSp] at hc
      exact Or.inr ⟨w, List.mem_cons_self w [], hc⟩
    | cons w2 rest2 =>
      rw [joinSp_cons₂] at hc
      rcases List.mem_append.mp hc with h1 | h1
      · exact Or.inr ⟨w, List.mem_cons_self _ _, h1⟩
      · rcases List.mem_cons.mp h1 with h2 | h2
        · exact Or.inl h2
        · rcases ih c h2 with h3 | ⟨w3, h4, h5⟩
          · exact Or.inl h3
          · exact Or.inr ⟨w3, List.mem_cons_of_mem w h4, h5⟩

theorem collapseWs_mem {s : Str} : ∀ c ∈ collapseWs s, c = ' ' ∨ (c ∈ s ∧ pyWs c = false) := by
  intro c hc
  rcases joinSp_mem c hc with h1 | ⟨w, hw, hcw⟩
  · exact Or.inl h1
  · exact Or.inr ((words_mem w hw).2 c hcw)

/-- `splitWsAux` of a whitespace-free string is that single segment. -/
theorem splitWsAux_nonws {w : Str} (hw : ∀ c ∈ w, pyWs c = false) :
    splitWsAux w = [w] := by
  induction w with
  | nil => rfl
  | cons c rest ih =>
    rw [splitWsAux, if_neg (by simp [hw c (List.mem_cons_self c rest)]),
      ih (fun c hc => hw c (List.mem_cons_of_mem _ hc))]

/-- Peeling one whitespace-free word followed by a space off `splitWsAux`. -/
theorem splitWsAux_word_space {w r : Str} (hw : ∀ c ∈ w, pyWs c = false) :
    splitWsAux (w ++ ' ' :: r) = w :: splitWsAux r := by
  induction w with
  | nil => simp [splitWsAux, pyWs]
  | cons c rest ih =>
    rw [List.cons_append, splitWsAux,
      if_neg (by simp [hw c (List.mem_cons_self c rest)]),
      ih (fun c hc => hw c (List.mem_cons_of_mem _ hc))]

/-- `words` is a left inverse of `joinSp` on lists of nonempty
whitespace-free words. -/
theorem words_joinSp {ws : List Str}
    (h : ∀ w ∈ ws, w ≠ [] ∧ ∀ c ∈ w, pyWs c = false) :
    words (joinSp ws) = ws := by
  induction ws with
  | nil => rfl
  | cons w rest ih =>
    cases rest with
    | nil =>
      obtain ⟨hne, hnw⟩ := h w (List.mem_cons_self w [])
      rw [joinSp, words, splitWsAux_nonws hnw]
      simp [hne]
    | cons w2 rest2 =>
      obtain ⟨hne, hnw⟩ := h w (List.mem_cons_self _ _)
      have ih2 := ih (fun v hv => h v (List.mem_cons_of_mem w hv))
      rw [joinSp_cons₂, words, splitWsAux_word_space hnw,
        List.filter_cons_of_pos (by simpa using hne)]
      rw [words] at ih2
      rw [ih2]

theorem collapseWs_idem {s : Str} : collapseWs (collapseWs s) = collapseWs s := by
  rw [collapseWs, collapseWs, words_joinSp (fun w hw =>
    ⟨(words_mem w hw).1, fun c hc => ((words_mem w hw).2 c hc).2⟩)]

/-! ## Lemmas about decimal formatting and the numeric-suffix scan -/

theorem digitVal_digitChar {d : Nat} (h : d < 10) : digitVal (digitChar d) = d := by
  interval_cases d <;> decide

theorem isDigit_digitChar {d : Nat} (h : d < 10) : (digitChar d).isDigit = true := by
  interval_cases d <;> decide

theorem natDigits_ne_nil {n : Nat} : natDigits n ≠ [] := by
  rw [natDigits, natDigitsAux]
  split
  · simp
  · simp

theorem natDigitsAux_digits : ∀ (fuel n : Nat), ∀ c ∈ natDigitsAux fuel n, c.isDigit = true := by
  intro fuel
  induction fuel with
  | zero => intro n c hc; simp [natDigitsAux] at hc
  | succ fuel ih =>
    intro n c hc
    rw [natDigitsAux] at hc
    split at hc
    · next h =>
      simp only [List.mem_singleton] at hc
      subst hc
      exact isDigit_digitChar h
    · next h =>
      rcases List.mem_append.mp hc with h1 | h1
      · exact ih (n / 10) c h1
      · simp only [List.mem_singleton] at h1
        subst h1
        exact isDigit_digitChar (Nat.mod_lt n (by omega))

theorem natDigits_digits {n : Nat} : ∀ c ∈ natDigits n, c.isDigit = true :=
  natDigitsAux_digits (n + 1) n

theorem parseDigits_append_single {a : Str} {c : Char} :
    parseDigits (a ++ [c]) = 10 * parseDigits a + digitVal c := by
  rw [parseDigits, List.foldl_append]
  rfl

theorem parseDigits_natDigitsAux : ∀ (fuel n : Nat), n < fuel →
    parseDigits (natDigitsAux fuel n) = n := by
  intro fuel
  induction fuel with
  | zero => intro n h; omega
  | succ fuel ih =>
    intro n h
    rw [natDigitsAux]
    split
    · next h10 =>
      rw [parseDigits, List.foldl_cons, List.foldl_nil]
      rw [show (10 * 0 + digitVal (digitChar n)) = digitVal (digitChar n) by omega]
      exact digitVal_digitChar h10
    · next h10 =>
      have hdiv : n / 10 < n := Nat.div_lt_self (by omega) (by omega)
      rw [parseDigits_append_single, ih (n / 10) (by omega),
        digitVal_digitChar (Nat.mod_lt n (by omega))]
      omega

theorem parseDigits_natDigits (n : Nat) : parseDigits (natDigits n) = n :=
  parseDigits_natDigitsAux (n + 1) n (by omega)

theorem parseDigits_zeros {k : Nat} {s : Str} :
    parseDigits (List.replicate k '0' ++ s) = parseDigits s := by
  induction k with
  | zero => rfl
  | succ k ih =>
    rw [List.replicate_succ, List.cons_append, parseDigits, List.foldl_cons]
    show parseDigits (List.replicate k '0' ++ s) = parseDigits s
    exact ih

theorem parseDigits_pad3 (n : Nat) : parseDigits (pad3 n) = n := by
  rw [pad3, parseDigits_zeros, parseDigits_natDigits]

theorem pad3_inj {m n : Nat} (h : pad3 m = pad3 n) : m = n := by
  have := parseDigits_pad3 m
  rw [h, parseDigits_pad3] at this
  omega

theorem pad3_digits {n : Nat} : ∀ c ∈ pad3 n, c.isDigit = true := by
  intro c hc
  rcases List.mem_append.mp hc with h1 | h1
  · rw [List.eq_of_mem_replicate h1]
    decide
  · exact natDigits_digits c h1

theorem pad3_ne_nil {n : Nat} : pad3 n ≠ [] := by
  intro h
  exact natDigits_ne_nil (List.append_eq_nil.mp h).2

theorem chunkName_inj {i j : Nat} (h : chunkName i = chunkName j) : i = j := by
  rw [chunkName, chunkName] at h
  exact pad3_inj (List.append_cancel_left (List.append_cancel_right h))

theorem resultName_inj {i j : Nat} (h : resultName i = resultName j) : i = j := by
  rw [resultName, resultName] at h
  exact pad3_inj (List.append_cancel_left (List.append_cancel_right h))

theorem chunkName_ne_resultName {i j : Nat} : chunkName i ≠ resultName j := by
  intro h
  have := congrArg List.head? h
  rw [chunkName, resultName] at this
  simp at this

theorem chunkName_ne_combinedName {i j : Nat} : chunkName i ≠ combinedName j := by
  intro h
  have := congrArg List.head? h
  rw [chunkName, combinedName] at this
  simp at this

/-- The numeric-suffix scan reads back exactly the number under which a
combined artifact of `11labs.py` was written. -/
theorem extractNumber_resultName (n : Nat) :
    extractNumber (resultName n) = some n := by
  have hres : resultName n = ("result_audio_".toList ++ pad3 n) ++ ".mp3".toList := by
    rw [resultName, List.append_assoc]
  rw [extractNumber, if_pos (by rw [hres]; exact List.isSuffixOf_iff_suffix.mpr ⟨_, rfl⟩)]
  have hlen : (resultName n).length - 4 = ("result_audio_".toList ++ pad3 n).length := by
    rw [hres, List.length_append]
    rfl
  rw [hlen, hres, List.take_left]
  have h1 : List.takeWhile Char.isDigit ("result_audio_".toList ++ pad3 n).reverse
      = (pad3 n).reverse := by
    rw [List.reverse_append, List.takeWhile_append_of_pos
      (fun c hc => pad3_digits c (List.mem_reverse.mp hc))]
    rw [show ("result_audio_".toList).reverse = '_' :: "oidua_tluser".toList from rfl,
      List.takeWhile_cons_of_neg (by decide), List.append_nil]
  simp only [h1, List.reverse_reverse, if_neg pad3_ne_nil, parseDigits_pad3]

/-- Likewise for the `combined_audio_` artifacts of `app2.py`. -/
theorem extractNumber_combinedName (n : Nat) :
    extractNumber (combinedName n) = some n := by
  have hres : combinedName n = ("combined_audio_".toList ++ pad3 n) ++ ".mp3".toList := by
    rw [combinedName, List.append_assoc]
  rw [extractNumber, if_pos (by rw [hres]; exact List.isSuffixOf_iff_suffix.mpr ⟨_, rfl⟩)]
  have hlen : (combinedName n).length - 4 = ("combined_audio_".toList ++ pad3 n).length := by
    rw [hres, List.length_append]
    rfl
  rw [hlen, hres, List.take_left]
  have h1 : List.takeWhile Char.isDigit ("combined_audio_".toList ++ pad3 n).reverse
      = (pad3 n).reverse := by
    rw [List.reverse_append, List.takeWhile_append_of_pos
      (fun c hc => pad3_digits c (List.mem_reverse.mp hc))]
    rw [show ("combined_audio_".toList).reverse = '_' :: "oidua_denibmoc".toList from rfl,
      List.takeWhile_cons_of_neg (by decide), List.append_nil]
  simp only [h1, List.reverse_reverse, if_neg pad3_ne_nil, parseDigits_pad3]

/-! ## Lemmas about association lists and the chunk writes -/

theorem dictLookup_update {β : Type} (m : List (Str × β)) (k : Str) (v : β) :
    dictLookup (dictUpdate m k v) k = some v := by
  induction m with
  | nil => simp [dictUpdate, dictLookup]
  | cons p rest ih =>
    rw [dictUpdate]
    by_cases h : p.1 = k
    · rw [if_pos h, dictLookup, if_pos rfl]
    · rw [if_neg h, dictLookup, if_neg h, ih]

theorem dictLookup_update_ne {β : Type} (m : List (Str × β)) {k k' : Str} (v : β)
    (h : k ≠ k') : dictLookup (dictUpdate m k v) k' = dictLookup m k' := by
  induction m with
  | nil => simp [dictUpdate, dictLookup, h]
  | cons p rest ih =>
    rw [dictUpdate]
    by_cases hp : p.1 = k
    · rw [if_pos hp, dictLookup, if_neg h, dictLookup, if_neg (hp ▸ h)]
    · rw [if_neg hp, dictLookup, dictLookup]
      by_cases hp' : p.1 = k'
      · rw [if_pos hp', if_pos hp']
      · rw [if_neg hp', if_neg hp', ih]

theorem mem_keys_of_dictLookup {β : Type} {m : List (Str × β)} {k : Str} {v : β}
    (h : dictLookup m k = some v) : k ∈ m.map Prod.fst := by
  induction m with
  | nil => simp [dictLookup] at h
  | cons p rest ih =>
    rw [dictLookup] at h
    by_cases hp : p.1 = k
    · rw [List.map_cons]
      exact hp ▸ List.mem_cons_self p.1 (rest.map Prod.fst)
    · rw [if_neg hp] at h
      rw [List.map_cons]
      exact List.mem_cons_of_mem p.1 (ih h)

theorem writesFrom_lookup_other :
    ∀ (bs : Nat → List Nat) (n i : Nat) (d : Dir) {name : Str},
      (∀ j, i ≤ j → j < i + n → name ≠ chunkName j) →
      dictLookup (writesFrom bs i n d) name = dictLookup d name := by
  intro bs n
  induction n with
  | zero => intro i d name _; rfl
  | succ n ih =>
    intro i d name h
    rw [writesFrom, ih (i + 1) _ (fun j h1 h2 => h j (by omega) (by omega)),
      dictLookup_update_ne _ _ (fun hq => h i (by omega) (by omega) hq.symm)]

theorem writesFrom_lookup_chunk :
    ∀ (bs : Nat → List Nat) (n i : Nat) (d : Dir) {j : Nat}, j < n →
      dictLookup (writesFrom bs i n d) (chunkName (i + j)) = some (bs (i + j)) := by
  intro bs n
  induction n with
  | zero => intro i d j h; omega
  | succ n ih =>
    intro i d j h
    rw [writesFrom]
    rcases Nat.eq_zero_or_pos j with hj | hj
    · subst hj
      simp only [Nat.add_zero]
      rw [writesFrom_lookup_other bs n (i + 1) _
        (fun j' h1 h2 hq => by
          have := chunkName_inj hq
          omega), dictLookup_update]
    · have : i + j = (i + 1) + (j - 1) := by omega
      rw [this, ih (i + 1) _ (by omega)]

theorem writesFromA_lookup_other :
    ∀ (bs : Nat → List Nat) (n p : Nat) (d : Dir) {name : Str},
      (∀ j, p + 1 ≤ j → j < p + 1 + n → name ≠ chunkName j) →
      dictLookup (writesFromA bs p n d) name = dictLookup d name := by
  intro bs n
  induction n with
  | zero => intro p d name _; rfl
  | succ n ih =>
    intro p d name h
    rw [writesFromA, ih (p + 1) _ (fun j h1 h2 => h j (by omega) (by omega)),
      dictLookup_update_ne _ _ (fun hq => h (p + 1) (by omega) (by omega) hq.symm)]

theorem writesFromA_lookup_chunk :
    ∀ (bs : Nat → List Nat) (n p : Nat) (d : Dir) {j : Nat}, j < n →
      dictLookup (writesFromA bs p n d) (chunkName (p + 1 + j)) = some (bs (p + j)) := by
  intro bs n
  induction n with
  | zero => intro p d j h; omega
  | succ n ih =>
    intro p d j h
    rw [writesFromA]
    rcases Nat.eq_zero_or_pos j with hj | hj
    · subst hj
      simp only [Nat.add_zero]
      rw [writesFromA_lookup_other bs n (p + 1) _
        (fun j' h1 h2 hq => by
          have := chunkName_inj hq
          omega), dictLookup_update]
    · have h1 : p + 1 + j = (p + 1) + 1 + (j - 1) := by omega
      have h2 : p + j = (p + 1) + (j - 1) := by omega
      rw [h1, h2, ih (p + 1) _ (by omega)]

/-! ## Lemmas about `get_next_file_number` -/

theorem extractNumber_none_of_not_mp3 {f : Str}
    (h : ¬ (".mp3".toList).isSuffixOf f) : extractNumber f = none := by
  rw [extractNumber, if_neg h]

theorem filterMap_extractNumber_filter (listing : List Str) :
    (listing.filter (fun f => (".mp3".toList).isSuffixOf f)).filterMap extractNumber
      = listing.filterMap extractNumber := by
  induction listing with
  | nil => rfl
  | cons f rest ih =>
    by_cases h : (".mp3".toList).isSuffixOf f
    · rw [List.filter_cons_of_pos h, List.filterMap_cons, List.filterMap_cons]
      cases extractNumber f
      · exact ih
      · rw [ih]
    · rw [List.filter_cons_of_neg (by simpa using h), List.filterMap_cons,
        extractNumber_none_of_not_mp3 h, ih]

theorem foldl_max_le_self {l : List Nat} : ∀ (a : Nat), a ≤ l.foldl Nat.max a := by
  induction l with
  | nil => intro a; exact Nat.le_refl a
  | cons m rest ih =>
    intro a
    exact Nat.le_trans (Nat.le_max_left a m) (ih (Nat.max a m))

theorem le_foldl_max {l : List Nat} : ∀ {m : Nat}, m ∈ l → ∀ (a : Nat), m ≤ l.foldl Nat.max a := by
  induction l with
  | nil => intro m h; simp at h
  | cons k rest ih =>
    intro m h a
    rcases List.mem_cons.mp h with h1 | h1
    · subst h1
      exact Nat.le_trans (Nat.le_max_right a m) (foldl_max_le_self (Nat.max a m))
    · exact ih h1 (Nat.max a k)

/-- The guarded computation in the source equals one unguarded `max`-fold over
all numeric suffixes (the two `return 1` early exits are the empty fold). -/
theorem get_next_eq_foldl (listing : List Str) :
    get_next_file_number listing = (listing.filterMap extractNumber).foldl Nat.max 0 + 1 := by
  rw [get_next_file_number]
  by_cases hex : listing.filter (fun f => (".mp3".toList).isSuffixOf f) = []
  · rw [if_pos hex]
    have : listing.filterMap extractNumber = [] := by
      rw [← filterMap_extractNumber_filter, hex]
      rfl
    rw [this]
    rfl
  · rw [if_neg hex, filterMap_extractNumber_filter]
    by_cases hnum : listing.filterMap extractNumber = []
    · rw [if_pos hnum, hnum]
      rfl
    · rw [if_neg hnum]

theorem get_next_gt {listing : List Str} {f : Str} {m : Nat}
    (hf : f ∈ listing) (hm : extractNumber f = some m) :
    m < get_next_file_number listing := by
  rw [get_next_eq_foldl]
  have : m ∈ listing.filterMap extractNumber := List.mem_filterMap.mpr ⟨f, hf, hm⟩
  have := le_foldl_max this 0
  omega

/-! ## Characterisation of the synthesis loops -/

theorem resolvesB_iff {c2v vd : List (Str × Str)} {u : Utterance} :
    resolvesB c2v vd u = true ↔
      ∃ vn vid, dictLookup c2v u.speaker = some vn ∧ dictLookup vd vn = some vid := by
  rw [resolvesB]
  cases hcv : dictLookup c2v u.speaker with
  | none => simp
  | some vn =>
    cases hvd : dictLookup vd vn with
    | none => simp [hvd]
    | some vid => simp [hvd]

theorem runUtterances_ok (tts : Nat → Option (List Nat)) (c2v vd : List (Str × Str))
    (bs : Nat → List Nat) :
    ∀ (us : List Utterance) (i : Nat) (st : GenState),
      (∀ j, j < us.length → resolvesB c2v vd (us.getD j ⟨[], [], []⟩) = true) →
      (∀ j, j < us.length → tts (i + j) = some (bs (i + j))) →
      runUtterances tts c2v vd us i st
        = .ok ⟨writesFrom bs i us.length st.dir,
               st.combined ++ catFrom bs i us.length,
               st.calls + us.length⟩ := by
  intro us
  induction us with
  | nil =>
    intro i st _ _
    simp [runUtterances, writesFrom, catFrom]
  | cons u rest ih =>
    intro i st hres htts
    have h0 := hres 0 (by simp)
    rw [List.getD_cons_zero] at h0
    obtain ⟨vn, vid, hcv, hvd⟩ := resolvesB_iff.mp h0
    have ht0 := htts 0 (by simp)
    rw [Nat.add_zero] at ht0
    simp only [runUtterances, hcv, hvd, ht0]
    rw [ih (i + 1) _ (fun j hj => by
        have := hres (j + 1) (by simpa using Nat.succ_lt_succ hj)
        rwa [List.getD_cons_succ] at this)
      (fun j hj => by
        have := htts (j + 1) (by simpa using Nat.succ_lt_succ hj)
        rwa [show i + (j + 1) = i + 1 + j by omega] at this)]
    rw [List.length_cons]
    have hw : writesFrom bs i (rest.length + 1) st.dir
        = writesFrom bs (i + 1) rest.length (dictUpdate st.dir (chunkName i) (bs i)) := rfl
    have hc : catFrom bs i (rest.length + 1) = bs i ++ catFrom bs (i + 1) rest.length := rfl
    rw [hw, hc]
    simp only [List.append_assoc]
    congr 2
    omega

theorem runUtterances_tts_fail (tts : Nat → Option (List Nat)) (c2v vd : List (Str × Str))
    (bs : Nat → List Nat) :
    ∀ (us : List Utterance) (k i : Nat) (st : GenState),
      k < us.length →
      (∀ j, j < k → resolvesB c2v vd (us.getD j ⟨[], [], []⟩) = true) →
      (∀ j, j < k → tts (i + j) = some (bs (i + j))) →
      resolvesB c2v vd (us.getD k ⟨[], [], []⟩) = true →
      tts (i + k) = none →
      runUtterances tts c2v vd us i st
        = .error ⟨writesFrom bs i k st.dir,
                  st.combined ++ catFrom bs i k,
                  st.calls + k + 1⟩ := by
  intro us
  induction us with
  | nil => intro k i st hk; simp at hk
  | cons u rest ih =>
    intro k i st hk hres htts hresk httsk
    cases k with
    | zero =>
      rw [List.getD_cons_zero] at hresk
      obtain ⟨vn, vid, hcv, hvd⟩ := resolvesB_iff.mp hresk
      rw [Nat.add_zero] at httsk
      simp only [runUtterances, hcv, hvd, httsk]
      simp [writesFrom, catFrom]
    | succ k =>
      have h0 := hres 0 (by omega)
      rw [List.getD_cons_zero] at h0
      obtain ⟨vn, vid, hcv, hvd⟩ := resolvesB_iff.mp h0
      have ht0 := htts 0 (by omega)
      rw [Nat.add_zero] at ht0
      simp only [runUtterances, hcv, hvd, ht0]
      rw [ih k (i + 1) _ (by simpa using Nat.lt_of_succ_lt_succ hk)
        (fun j hj => by
          have := hres (j + 1) (by omega)
          rwa [List.getD_cons_succ] at this)
        (fun j hj => by
          have := htts (j + 1) (by omega)
          rwa [show i + (j + 1) = i + 1 + j by omega] at this)
        (by
          have := hresk
          rwa [List.getD_cons_succ] at this)
        (by rwa [show i + (k + 1) = i + 1 + k by omega] at httsk)]
      have hw : writesFrom bs i (k + 1) st.dir
          = writesFrom bs (i + 1) k (dictUpdate st.dir (chunkName i) (bs i)) := rfl
      have hc : catFrom bs i (k + 1) = bs i ++ catFrom bs (i + 1) k := rfl
      rw [hw, hc]
      simp only [List.append_assoc]
      congr 2
      omega

theorem runUtterances_missing (tts : Nat → Option (List Nat)) (c2v vd : List (Str × Str))
    (bs : Nat → List Nat) :
    ∀ (us : List Utterance) (k i : Nat) (st : GenState),
      k < us.length →
      (∀ j, j < k → resolvesB c2v vd (us.getD j ⟨[], [], []⟩) = true) →
      (∀ j, j < k → tts (i + j) = some (bs (i + j))) →
      dictLookup c2v (us.getD k ⟨[], [], []⟩).speaker = none →
      runUtterances tts c2v vd us i st
        = .error ⟨writesFrom bs i k st.dir,
                  st.combined ++ catFrom bs i k,
                  st.calls + k⟩ := by
  intro us
  induction us with
  | nil => intro k i st hk; simp at hk
  | cons u rest ih =>
    intro k i st hk hres htts hmiss
    cases k with
    | zero =>
      rw [List.getD_cons_zero] at hmiss
      simp only [runUtterances, hmiss]
      simp [writesFrom, catFrom]
    | succ k =>
      have h0 := hres 0 (by omega)
      rw [List.getD_cons_zero] at h0
      obtain ⟨vn, vid, hcv, hvd⟩ := resolvesB_iff.mp h0
      have ht0 := htts 0 (by omega)
      rw [Nat.add_zero] at ht0
      simp only [runUtterances, hcv, hvd, ht0]
      rw [ih k (i + 1) _ (by simpa using Nat.lt_of_succ_lt_succ hk)
        (fun j hj => by
          have := hres (j + 1) (by omega)
          rwa [List.getD_cons_succ] at this)
        (fun j hj => by
          have := htts (j + 1) (by omega)
          rwa [show i + (j + 1) = i + 1 + j by omega] at this)
        (by
          have := hmiss
          rwa [List.getD_cons_succ] at this)]
      have hw : writesFrom bs i (k + 1) st.dir
          = writesFrom bs (i + 1) k (dictUpdate st.dir (chunkName i) (bs i)) := rfl
      have hc : catFrom bs i (k + 1) = bs i ++ catFrom bs (i + 1) k := rfl
      rw [hw, hc]
      simp only [List.append_assoc]
      congr 2
      omega

theorem runDialogue_ok (tts : Nat → Option (List Nat)) (sv : List (Str × Str))
    (bs : Nat → List Nat) :
    ∀ (ds : List DialogueItem) (p : Nat) (st : GenState),
      (∀ j, j < ds.length → (dictLookup sv (ds.getD j ⟨[], []⟩).speaker).isSome = true) →
      (∀ j, j < ds.length → tts (p + j) = some (bs (p + j))) →
      runDialogue tts sv ds p st
        = .ok ⟨writesFromA bs p ds.length st.dir,
               st.combined ++ catFrom bs p ds.length,
               st.calls + ds.length⟩ := by
  intro ds
  induction ds with
  | nil =>
    intro p st _ _
    simp [runDialogue, writesFromA, catFrom]
  | cons d rest ih =>
    intro p st hres htts
    have h0 := hres 0 (by simp)
    rw [List.getD_cons_zero] at h0
    obtain ⟨v, hcv⟩ := Option.isSome_iff_exists.mp h0
    have ht0 := htts 0 (by simp)
    rw [Nat.add_zero] at ht0
    simp only [runDialogue, hcv, ht0]
    rw [ih (p + 1) _ (fun j hj => by
        have := hres (j + 1) (by simpa using Nat.succ_lt_succ hj)
        rwa [List.getD_cons_succ] at this)
      (fun j hj => by
        have := htts (j + 1) (by simpa using Nat.succ_lt_succ hj)
        rwa [show p + (j + 1) = p + 1 + j by omega] at this)]
    rw [List.length_cons]
    have hw : writesFromA bs p (rest.length + 1) st.dir
        = writesFromA bs (p + 1) rest.length (dictUpdate st.dir (chunkName (p + 1)) (bs p)) := rfl
    have hc : catFrom bs p (rest.length + 1) = bs p ++ catFrom bs (p + 1) rest.length := rfl
    rw [hw, hc]
    simp only [List.append_assoc]
    congr 2
    omega

/-- A successful `generate` run in full: every chunk written under its 0-based
index, the combined bytes written under the next free `result_audio_` name
scanned after the chunk writes. -/
theorem generate_ok_char {tts : Nat → Option (List Nat)} {vd m0 : List (Str × Str)}
    {casts voices : List Str} {transcript : List Utterance}
    (dir0 : Dir) (bs : Nat → List Nat)
    (htr : transcript ≠ [])
    (hc2v : assignVoices m0 casts voices ≠ [])
    (hres : ∀ j, j < transcript.length →
      resolvesB (assignVoices m0 casts voices) vd (transcript.getD j ⟨[], [], []⟩) = true)
    (htts : ∀ j, j < transcript.length → tts j = some (bs j)) :
    generate tts vd m0 casts voices transcript dir0
      = .ok (dictUpdate (writesFrom bs 0 transcript.length dir0)
              (resultName (get_next_file_number
                ((writesFrom bs 0 transcript.length dir0).map Prod.fst)))
              (catFrom bs 0 transcript.length),
            resultName (get_next_file_number
              ((writesFrom bs 0 transcript.length dir0).map Prod.fst))) := by
  have hrun := runUtterances_ok tts (assignVoices m0 casts voices) vd bs
    transcript 0 ⟨dir0, [], 0⟩
    (fun j hj => hres j hj) (fun j hj => by simpa using htts j (by simpa using hj))
  unfold generate
  rw [if_neg htr]
  simp only [if_neg hc2v, hrun]
  simp

/-- A successful `generate_audio` run in full: the item at 0-based position
`p` is written under chunk index `p + 1`, the combined bytes under the next
free `combined_audio_` name. -/
theorem generate_audio_ok_char {tts : Nat → Option (List Nat)} {sv : List (Str × Str)}
    {dialogue : List DialogueItem} (dir0 : Dir) (bs : Nat → List Nat)
    (hres : ∀ j, j < dialogue.length →
      (dictLookup sv (dialogue.getD j ⟨[], []⟩).speaker).isSome = true)
    (htts : ∀ j, j < dialogue.length → tts j = some (bs j)) :
    generate_audio tts sv dialogue dir0
      = .ok (dictUpdate (writesFromA bs 0 dialogue.length dir0)
              (combinedName (get_next_file_number
                ((writesFromA bs 0 dialogue.length dir0).map Prod.fst)))
              (catFrom bs 0 dialogue.length),
            combinedName (get_next_file_number
              ((writesFromA bs 0 dialogue.length dir0).map Prod.fst))) := by
  have hrun := runDialogue_ok tts sv bs dialogue 0 ⟨dir0, [], 0⟩
    (fun j hj => hres j hj) (fun j hj => by simpa using htts j (by simpa using hj))
  unfold generate_audio
  simp only [hrun]
  simp

theorem catFrom_eq_flatten {bs : Nat → List Nat} :
    ∀ (n i : Nat), catFrom bs i n = ((List.range n).map (fun j => bs (i + j))).flatten := by
  intro n
  induction n with
  | zero => intro i; rfl
  | succ n ih =>
    intro i
    rw [catFrom, List.range_succ_eq_map, List.map_cons, List.flatten_cons, Nat.add_zero,
      ih (i + 1), List.map_map]
    congr 2
    exact List.map_congr_left (fun j _ => by
      simp only [Function.comp_apply]
      congr 1
      omega)

theorem catFrom_zero {bs : Nat → List Nat} {n : Nat} :
    catFrom bs 0 n = ((List.range n).map bs).flatten := by
  rw [catFrom_eq_flatten]
  congr 1
  exact List.map_congr_left (fun j _ => by rw [Nat.zero_add])

/-! ## Lemmas about `parse_line` on decomposed texts -/

theorem splitColon_append {sp t : Str} (h : ':' ∉ sp) :
    splitColon (sp ++ ':' :: t) = some (sp, t) := by
  induction sp with
  | nil => simp [splitColon]
  | cons c rest ih =>
    have hc : c ≠ ':' := fun hq => h (hq ▸ List.mem_cons_self c rest)
    rw [List.cons_append, splitColon, if_neg hc,
      ih (fun hq => h (List.mem_cons_of_mem c hq))]
    rfl

theorem splitAtClose_append {g r : Str} (h : ')' ∉ g) :
    splitAtClose (g ++ ')' :: r) = some (g, r) := by
  induction g with
  | nil => simp [splitAtClose]
  | cons c rest ih =>
    have hc : c ≠ ')' := fun hq => h (hq ▸ List.mem_cons_self c rest)
    rw [List.cons_append, splitAtClose, if_neg hc,
      ih (fun hq => h (List.mem_cons_of_mem c hq))]
    rfl

theorem parseMoods_nil : parseMoods [] = ([], []) := by
  rw [parseMoods]

theorem parseMoods_noOpen {s : Str} (h : ∀ c ∈ s, c ≠ '(') :
    ∀ r : Str, parseMoods (s ++ r) = (s ++ (parseMoods r).1, (parseMoods r).2) := by
  induction s with
  | nil => intro r; rfl
  | cons c rest ih =>
    intro r
    rw [List.cons_append, parseMoods,
      if_neg (h c (List.mem_cons_self c rest)),
      ih (fun c hc => h c (List.mem_cons_of_mem _ hc)) r]
    simp

theorem parseMoods_cons_open {rest : Str} {cr : Str × Str}
    (hsp : splitAtClose rest = some cr) :
    parseMoods ('(' :: rest)
      = (' ' :: (parseMoods cr.2).1, cr.1 :: (parseMoods cr.2).2) := by
  rw [parseMoods, if_pos rfl]
  split
  · next cr' heq =>
    rw [hsp] at heq
    cases heq
    rfl
  · next heq =>
    rw [hsp] at heq
    simp at heq

theorem parseMoods_renderGroups {gs : List (Str × Str)}
    (hgs : ∀ p ∈ gs, parenFree p.1 ∧ parenFree p.2) :
    parseMoods (renderGroups gs)
      = ((gs.map fun p => ' ' :: p.2).flatten, gs.map Prod.fst) := by
  induction gs with
  | nil => simpa using parseMoods_nil
  | cons p rest ih =>
    obtain ⟨hg, hs⟩ := hgs p (List.mem_cons_self p rest)
    have hnc : ')' ∉ p.1 := fun hq => (hg ')' hq).2 rfl
    have hrec : parseMoods (p.2 ++ renderGroups rest)
        = (p.2 ++ (parseMoods (renderGroups rest)).1, (parseMoods (renderGroups rest)).2) :=
      parseMoods_noOpen (fun c hc => (hs c hc).1) (renderGroups rest)
    rw [renderGroups, parseMoods_cons_open (splitAtClose_append hnc)]
    rw [hrec, ih (fun q hq => hgs q (List.mem_cons_of_mem p hq))]
    simp

theorem parseMoods_renderScript {s0 : Str} {gs : List (Str × Str)}
    (h0 : parenFree s0) (hgs : ∀ p ∈ gs, parenFree p.1 ∧ parenFree p.2) :
    parseMoods (renderScript s0 gs)
      = (removeGroups s0 gs, gs.map Prod.fst) := by
  rw [renderScript, parseMoods_noOpen (fun c hc => (h0 c hc).1) (renderGroups gs),
    parseMoods_renderGroups hgs]
  rfl

/-! ## The claims -/

/-- C2: For every utterance text containing zero, one, or multiple
parenthetical groups — i.e. decomposing into paren-free segments around
groups `(gᵢ)` with paren-free bodies, with no surrounding whitespace (which
`parse_line` would strip first anyway) — `parse_line` on `speaker : text`
returns (a) a mood equal to the comma-space join of exactly the non-empty
parenthetical contents (each group's content being its body with surrounding
whitespace trimmed), in order of appearance, and (b) a cleaned text equal to
the text with every parenthesized span removed (replaced by a space) and
whitespace collapsed; the cleaned text contains no parenthesis characters and
is a `collapseWs` fixed point (single internal spaces, no leading/trailing
whitespace). -/
theorem claim2_parse_line (sp s0 : Str) (gs : List (Str × Str))
    (hsp : ':' ∉ sp)
    (h0 : parenFree s0)
    (hgs : ∀ p ∈ gs, parenFree p.1 ∧ parenFree p.2)
    (hstrip : strip (renderScript s0 gs) = renderScript s0 gs) :
    parse_line (sp ++ ':' :: renderScript s0 gs)
      = some (strip sp, collapseWs (removeGroups s0 gs),
          joinCS (((gs.map Prod.fst).map strip).filter (· ≠ [])))
    ∧ parenFree (collapseWs (removeGroups s0 gs))
    ∧ collapseWs (collapseWs (removeGroups s0 gs)) = collapseWs (removeGroups s0 gs) := by
  refine ⟨?_, ?_, collapseWs_idem⟩
  · simp only [parse_line, splitColon_append hsp, Option.map_some', hstrip,
      parseMoods_renderScript h0 hgs]
  · intro c hc
    rcases collapseWs_mem c hc with h1 | ⟨h2, _⟩
    · subst h1
      exact ⟨by decide, by decide⟩
    · rw [removeGroups] at h2
      rcases List.mem_append.mp h2 with h3 | h3
      · exact h0 c h3
      · obtain ⟨l, hl, hcl⟩ := List.mem_flatten.mp h3
        obtain ⟨p, hp, rfl⟩ := List.mem_map.mp hl
        rcases List.mem_cons.mp hcl with h4 | h4
        · subst h4
          exact ⟨by decide, by decide⟩
        · exact (hgs p hp).2 c h4

/-- Witness for C2 at the spec's own example
`"Charlie: Hey there! (excited) (again)"`, whose decomposition has
`s0 = "Hey there! "` and groups `("excited", " ")`, `("again", "")`. -/
theorem claim2_witness :
    parse_line ("Charlie".toList ++ ':' :: renderScript ("Hey there! ".toList)
        [("excited".toList, " ".toList), ("again".toList, [])])
      = some (strip ("Charlie".toList),
          collapseWs (removeGroups ("Hey there! ".toList)
            [("excited".toList, " ".toList), ("again".toList, [])]),
          joinCS ((([("excited".toList, " ".toList),
              ("again".toList, [])].map Prod.fst).map strip).filter (· ≠ []))) :=
  (claim2_parse_line ("Charlie".toList) ("Hey there! ".toList)
    [("excited".toList, " ".toList), ("again".toList, [])]
    (by decide) (by decide) (by decide) (by decide)).1

/-- C3: For every successful run over `n` utterances, in both pipelines, the
combined artifact's byte content equals the concatenation of the `n`
per-utterance chunk byte sequences in utterance order (each chunk file holding
exactly its utterance's bytes), and its length is the sum of the chunk
lengths.  The model concatenates along the loop, so the order is the
utterance sequence order by construction — no directory listing is consulted
for assembly (the listing is only scanned for the artifact's number). -/
theorem claim3_combined_concat
    (tts ttsA : Nat → Option (List Nat)) (vd m0 sv : List (Str × Str))
    (casts voices : List Str) (transcript : List Utterance)
    (dialogue : List DialogueItem) (dir0 dir0A : Dir) (bs bsA : Nat → List Nat)
    (htr : transcript ≠ [])
    (hc2v : assignVoices m0 casts voices ≠ [])
    (hres : ∀ j, j < transcript.length →
      resolvesB (assignVoices m0 casts voices) vd (transcript.getD j ⟨[], [], []⟩) = true)
    (htts : ∀ j, j < transcript.length → tts j = some (bs j))
    (hresA : ∀ j, j < dialogue.length →
      (dictLookup sv (dialogue.getD j ⟨[], []⟩).speaker).isSome = true)
    (httsA : ∀ j, j < dialogue.length → ttsA j = some (bsA j)) :
    (∃ dirF fname, generate tts vd m0 casts voices transcript dir0 = .ok (dirF, fname)
      ∧ dictLookup dirF fname = some (((List.range transcript.length).map bs).flatten)
      ∧ (((List.range transcript.length).map bs).flatten).length
          = ((List.range transcript.length).map (fun j => (bs j).length)).sum
      ∧ ∀ j, j < transcript.length → dictLookup dirF (chunkName j) = some (bs j))
    ∧ (∃ dirF fname, generate_audio ttsA sv dialogue dir0A = .ok (dirF, fname)
      ∧ dictLookup dirF fname = some (((List.range dialogue.length).map bsA).flatten)
      ∧ (((List.range dialogue.length).map bsA).flatten).length
          = ((List.range dialogue.length).map (fun j => (bsA j).length)).sum
      ∧ ∀ p, p < dialogue.length → dictLookup dirF (chunkName (p + 1)) = some (bsA p)) := by
  constructor
  · refine ⟨_, _, generate_ok_char dir0 bs htr hc2v hres htts, ?_, ?_, ?_⟩
    · rw [dictLookup_update, catFrom_zero]
    · rw [List.length_flatten, List.map_map]
      rfl
    · intro j hj
      rw [dictLookup_update_ne _ _ (fun hq => chunkName_ne_resultName hq.symm)]
      have := writesFrom_lookup_chunk bs transcript.length 0 dir0 (j := j) hj
      simpa using this
  · refine ⟨_, _, generate_audio_ok_char dir0A bsA hresA httsA, ?_, ?_, ?_⟩
    · rw [dictLookup_update, catFrom_zero]
    · rw [List.length_flatten, List.map_map]
      rfl
    · intro p hp
      rw [dictLookup_update_ne _ _ (fun hq => chunkName_ne_combinedName hq.symm)]
      have := writesFromA_lookup_chunk bsA dialogue.length 0 dir0A (j := p) hp
      rw [show p + 1 = 1 + p by omega]
      simpa using this

/-- Witness for C3: a two-utterance 11labs run and a one-line app2 run with
concrete oracles. -/
theorem claim3_witness :
    ∃ dirF fname,
      generate (fun i => some [i + 1]) [("v".toList, "id".toList)] []
        ["Ann".toList, "Bob".toList] ["v".toList, "v".toList]
        [⟨"Ann".toList, "hi".toList, []⟩, ⟨"Bob".toList, "yo".toList, []⟩] []
        = .ok (dirF, fname)
      ∧ dictLookup dirF fname
          = some (((List.range 2).map (fun i => [i + 1])).flatten)
      ∧ (((List.range 2).map (fun i => [i + 1])).flatten).length
          = ((List.range 2).map (fun j => [j + 1].length)).sum
      ∧ ∀ j, j < 2 → dictLookup dirF (chunkName j) = some [j + 1] := by
  have h := (claim3_combined_concat (fun i => some [i + 1]) (fun i => some [i + 7])
    [("v".toList, "id".toList)] [] [("Ann".toList, "alloy".toList)]
    ["Ann".toList, "Bob".toList] ["v".toList, "v".toList]
    [⟨"Ann".toList, "hi".toList, []⟩, ⟨"Bob".toList, "yo".toList, []⟩]
    [⟨"hi".toList, "Ann".toList⟩] [] []
    (fun i => [i + 1]) (fun i => [i + 7])
    (by decide) (by decide) (by decide)
    (fun j hj => rfl) (by decide) (fun j hj => rfl)).1
  exact h

/-- C4: The combined artifact's numeric suffix is `max(existing numeric
suffixes of .mp3 files) + 1` (the empty fold giving `0 + 1 = 1`), so it
strictly exceeds every numeric suffix present in the scanned listing and the
chosen `result_audio_` name collides with no listed file carrying a numeric
suffix.  At run level: for two consecutive successful runs, any combined
artifact `result_audio_k` present before the second run is still present,
unchanged, after it, and the second run's suffix strictly exceeds `k` —
the previous combined artifact is never overwritten. -/
theorem claim4_no_overwrite :
    (∀ listing : List Str,
      get_next_file_number listing
          = (listing.filterMap extractNumber).foldl Nat.max 0 + 1
      ∧ (∀ f ∈ listing, ∀ m, extractNumber f = some m →
          m < get_next_file_number listing)
      ∧ (∀ f ∈ listing, (extractNumber f).isSome = true →
          resultName (get_next_file_number listing) ≠ f))
    ∧ (∀ (tts : Nat → Option (List Nat)) (vd m0 : List (Str × Str))
        (casts voices : List Str) (transcript : List Utterance) (dir0 : Dir)
        (bs : Nat → List Nat) (k : Nat) (old : List Nat),
        transcript ≠ [] →
        assignVoices m0 casts voices ≠ [] →
        (∀ j, j < transcript.length →
          resolvesB (assignVoices m0 casts voices) vd (transcript.getD j ⟨[], [], []⟩) = true) →
        (∀ j, j < transcript.length → tts j = some (bs j)) →
        dictLookup dir0 (resultName k) = some old →
        ∃ dirF nxt,
          generate tts vd m0 casts voices transcript dir0 = .ok (dirF, resultName nxt)
          ∧ k < nxt
          ∧ dictLookup dirF (resultName k) = some old) := by
  constructor
  · intro listing
    refine ⟨get_next_eq_foldl listing, fun f hf m hm => get_next_gt hf hm, ?_⟩
    intro f hf hs hq
    obtain ⟨m, hm⟩ := Option.isSome_iff_exists.mp hs
    have hr : extractNumber f = some (get_next_file_number listing) := by
      rw [← hq, extractNumber_resultName]
    have := get_next_gt hf hr
    omega
  · intro tts vd m0 casts voices transcript dir0 bs k old htr hc2v hres htts hk
    have hgen := generate_ok_char dir0 bs htr hc2v hres htts
    have hmid : dictLookup (writesFrom bs 0 transcript.length dir0) (resultName k)
        = some old := by
      rw [writesFrom_lookup_other bs transcript.length 0 dir0
        (fun j h1 h2 hq => chunkName_ne_resultName hq.symm), hk]
    have hklt : k < get_next_file_number
        ((writesFrom bs 0 transcript.length dir0).map Prod.fst) :=
      get_next_gt (mem_keys_of_dictLookup hmid) (extractNumber_resultName k)
    refine ⟨_, _, hgen, hklt, ?_⟩
    rw [dictLookup_update_ne _ _ (fun hq => by
      have := resultName_inj hq
      omega), hmid]

/-- Witness for C4: the listing facts at a two-file listing with suffixes 1
and 0, and the run-level fact for a directory already holding
`result_audio_001.mp3`. -/
theorem claim4_witness :
    (get_next_file_number ["result_audio_001.mp3".toList, "audio_chunk_000.mp3".toList]
        = [1, 0].foldl Nat.max 0 + 1
      ∧ 1 < get_next_file_number ["result_audio_001.mp3".toList, "audio_chunk_000.mp3".toList])
    ∧ ∃ dirF nxt,
        generate (fun i => some [i + 3]) [("v".toList, "id".toList)] []
          ["Ann".toList] ["v".toList] [⟨"Ann".toList, "hi".toList, []⟩]
          [(resultName 1, [9])]
          = .ok (dirF, resultName nxt)
        ∧ 1 < nxt
        ∧ dictLookup dirF (resultName 1) = some [9] := by
  constructor
  · constructor
    · have h := (claim4_no_overwrite.1
        ["result_audio_001.mp3".toList, "audio_chunk_000.mp3".toList]).1
      rw [h]
      decide
    · exact (claim4_no_overwrite.1
        ["result_audio_001.mp3".toList, "audio_chunk_000.mp3".toList]).2.1
        ("result_audio_001.mp3".toList) (by decide) 1 (by decide)
  · exact claim4_no_overwrite.2 (fun i => some [i + 3]) [("v".toList, "id".toList)] []
      ["Ann".toList] ["v".toList] [⟨"Ann".toList, "hi".toList, []⟩]
      [(resultName 1, [9])] (fun i => [i + 3]) 1 [9]
      (by decide) (by decide) (by decide) (fun j hj => rfl) (by decide)

/-- C5: If the synthesis call for utterance `i` fails (after `i` successful
calls), the `generate` run aborts at utterance `i`: the state is exactly the
chunk writes for utterances `0..i-1` with `i + 1` calls issued (the last one
the failing one), so no combined artifact is written (`result_audio_` lookups
are those of the starting directory), no chunk file exists for utterance `i`
or later beyond what the directory already held, and chunks written before
`i` hold exactly their utterances' bytes. -/
theorem claim5_abort_on_failure
    (tts : Nat → Option (List Nat)) (vd m0 : List (Str × Str))
    (casts voices : List Str) (transcript : List Utterance) (dir0 : Dir)
    (bs : Nat → List Nat) (i : Nat)
    (htr : transcript ≠ [])
    (hc2v : assignVoices m0 casts voices ≠ [])
    (hi : i < transcript.length)
    (hres : ∀ j, j ≤ i →
      resolvesB (assignVoices m0 casts voices) vd (transcript.getD j ⟨[], [], []⟩) = true)
    (htts : ∀ j, j < i → tts j = some (bs j))
    (hfail : tts i = none) :
    generate tts vd m0 casts voices transcript dir0
      = .error ⟨writesFrom bs 0 i dir0, catFrom bs 0 i, i + 1⟩
    ∧ (∀ k, dictLookup (writesFrom bs 0 i dir0) (resultName k)
        = dictLookup dir0 (resultName k))
    ∧ (∀ j, j < i → dictLookup (writesFrom bs 0 i dir0) (chunkName j) = some (bs j))
    ∧ (∀ j, i ≤ j → dictLookup (writesFrom bs 0 i dir0) (chunkName j)
        = dictLookup dir0 (chunkName j)) := by
  have hrun := runUtterances_tts_fail tts (assignVoices m0 casts voices) vd bs
    transcript i 0 ⟨dir0, [], 0⟩ hi
    (fun j hj => hres j (by omega))
    (fun j hj => by simpa using htts j hj)
    (hres i (by omega)) (by simpa using hfail)
  refine ⟨?_, ?_, ?_, ?_⟩
  · unfold generate
    rw [if_neg htr]
    simp only [if_neg hc2v, hrun]
    simp
  · intro k
    exact writesFrom_lookup_other bs i 0 dir0
      (fun j h1 h2 hq => chunkName_ne_resultName hq.symm)
  · intro j hj
    have := writesFrom_lookup_chunk bs i 0 dir0 hj
    simpa using this
  · intro j hj
    exact writesFrom_lookup_other bs i 0 dir0
      (fun j' h1 h2 hq => by
        have := chunkName_inj hq
        omega)

/-- Witness for C5: a two-utterance run whose second synthesis call fails;
the run ends in the error state holding only chunk 0 and two issued calls. -/
theorem claim5_witness :
    generate (fun i => if i = 0 then some [5] else none)
      [("v".toList, "id".toList)] []
      ["Ann".toList, "Bob".toList] ["v".toList, "v".toList]
      [⟨"Ann".toList, "hi".toList, []⟩, ⟨"Bob".toList, "yo".toList, []⟩] []
      = .error ⟨writesFrom (fun _ => [5]) 0 1 [], catFrom (fun _ => [5]) 0 1, 2⟩ :=
  (claim5_abort_on_failure (fun i => if i = 0 then some [5] else none)
    [("v".toList, "id".toList)] [] ["Ann".toList, "Bob".toList]
    ["v".toList, "v".toList]
    [⟨"Ann".toList, "hi".toList, []⟩, ⟨"Bob".toList, "yo".toList, []⟩] []
    (fun _ => [5]) 1
    (by decide) (by decide) (by decide)
    (fun j hj => by
      have h0 : j = 0 ∨ j = 1 := by omega
      rcases h0 with h | h <;> (subst h; decide))
    (fun j hj => by
      have h0 : j = 0 := by omega
      subst h0
      rfl)
    rfl).1

/-- C1 (counterexample): a run whose cast contains `Bob` with no voice
assignment (the voices tuple is shorter than the cast) still issues the
synthesis call for the first utterance and writes its chunk file before
failing at `Bob`'s utterance — generation does not fail before every
synthesis call. -/
theorem claim1_counterexample :
    generate (fun _ => some [7]) [("v".toList, "id".toList)] []
      ["Ann".toList, "Bob".toList] ["v".toList]
      [⟨"Ann".toList, "hi".toList, []⟩, ⟨"Bob".toList, "yo".toList, []⟩] []
      = .error ⟨[(chunkName 0, [7])], [7], 1⟩ := by
  rfl

/-- C1 (amended): generation fails deterministically at the **first**
utterance whose speaker lacks a voice assignment, before the synthesis call
for that utterance: the failure state holds exactly the chunk writes and the
`k` synthesis calls of the earlier utterances (whose speakers resolved), and
in particular when the first utterance's speaker is the unassigned one no
synthesis call is issued and no chunk file is written at all. -/
theorem claim1_amended
    (tts : Nat → Option (List Nat)) (vd m0 : List (Str × Str))
    (casts voices : List Str) (transcript : List Utterance) (dir0 : Dir)
    (bs : Nat → List Nat) (k : Nat)
    (htr : transcript ≠ [])
    (hc2v : assignVoices m0 casts voices ≠ [])
    (hk : k < transcript.length)
    (hres : ∀ j, j < k →
      resolvesB (assignVoices m0 casts voices) vd (transcript.getD j ⟨[], [], []⟩) = true)
    (htts : ∀ j, j < k → tts j = some (bs j))
    (hmiss : dictLookup (assignVoices m0 casts voices)
      (transcript.getD k ⟨[], [], []⟩).speaker = none) :
    generate tts vd m0 casts voices transcript dir0
      = .error ⟨writesFrom bs 0 k dir0, catFrom bs 0 k, k⟩
    ∧ (k = 0 → generate tts vd m0 casts voices transcript dir0
        = .error ⟨dir0, [], 0⟩) := by
  have hrun := runUtterances_missing tts (assignVoices m0 casts voices) vd bs
    transcript k 0 ⟨dir0, [], 0⟩ hk hres
    (fun j hj => by simpa using htts j hj) hmiss
  have hmain : generate tts vd m0 casts voices transcript dir0
      = .error ⟨writesFrom bs 0 k dir0, catFrom bs 0 k, k⟩ := by
    unfold generate
    rw [if_neg htr]
    simp only [if_neg hc2v, hrun]
    simp
  refine ⟨hmain, fun hk0 => ?_⟩
  subst hk0
  rw [hmain]
  rfl

/-- Witness for C1's amended statement: cast `[Ann, Bob]`, voices `[v]`
(so `Bob` is unassigned), failure at utterance 1 with chunk 0 written and
one call issued. -/
theorem claim1_witness :
    generate (fun _ => some [7]) [("v".toList, "id".toList)] []
      ["Ann".toList, "Bob".toList] ["v".toList]
      [⟨"Ann".toList, "hi".toList, []⟩, ⟨"Bob".toList, "yo".toList, []⟩] []
      = .error ⟨writesFrom (fun _ => [7]) 0 1 [], catFrom (fun _ => [7]) 0 1, 1⟩ :=
  (claim1_amended (fun _ => some [7]) [("v".toList, "id".toList)] []
    ["Ann".toList, "Bob".toList] ["v".toList]
    [⟨"Ann".toList, "hi".toList, []⟩, ⟨"Bob".toList, "yo".toList, []⟩] []
    (fun _ => [7]) 1
    (by decide) (by decide) (by decide)
    (fun j hj => by
      have h0 : j = 0 := by omega
      subst h0
      decide)
    (fun j hj => rfl)
    (by decide)).1

/-! ## Per-line behaviour of the two parsers -/

theorem splitColon_eq_none {l : Str} (h : ':' ∉ l) : splitColon l = none := by
  induction l with
  | nil => rfl
  | cons c rest ih =>
    have hc : c ≠ ':' := fun hq => h (hq ▸ List.mem_cons_self c rest)
    rw [splitColon, if_neg hc, ih (fun hq => h (List.mem_cons_of_mem c hq))]
    rfl

theorem parse_line_eq_none {l : Str} (h : ':' ∉ l) : parse_line l = none := by
  rw [parse_line, splitColon_eq_none h]
  rfl

theorem makeCastsStep_skip {acc : Option (List Utterance × List Str)} {l : Str}
    (h : skipsLine l = true) : makeCastsStep acc l = acc := by
  cases acc with
  | none => rfl
  | some pr => rw [makeCastsStep, if_pos h]

theorem foldl_makeCastsStep_none : ∀ lines : List Str,
    lines.foldl makeCastsStep none = none := by
  intro lines
  induction lines with
  | nil => rfl
  | cons a rest ih => rw [List.foldl_cons]; exact ih

theorem foldl_makeCastsStep_bad_line :
    ∀ (lines : List Str) (acc : Option (List Utterance × List Str)) (l : Str),
      l ∈ lines → skipsLine l = false → ':' ∉ l →
      lines.foldl makeCastsStep acc = none := by
  intro lines
  induction lines with
  | nil => intro acc l hl; simp at hl
  | cons a rest ih =>
    intro acc l hl hskip hcolon
    rw [List.foldl_cons]
    rcases List.mem_cons.mp hl with h | h
    · subst h
      have hstep : makeCastsStep acc l = none := by
        cases acc with
        | none => rfl
        | some pr =>
          rw [makeCastsStep, if_neg (by simp [hskip]), parse_line_eq_none hcolon]
      rw [hstep]
      exact foldl_makeCastsStep_none rest
    · exact ih (makeCastsStep acc a) l h hskip hcolon

/-- C6: A line that does not match a speaker-prefix pattern: in strict mode
(`read_text_file`), if an utterance is open (truthy `current_speaker`) the
line is appended space-joined to the open utterance's text, and if none is
open it seeds an utterance for the first configured speaker; in simple mode
(`make_casts`/`parse_line`), where no utterance is ever left open, a
non-matching line — one with no `':'` — anywhere in the script (in
particular before any speaker tag) is a parse error that fails the whole
parse. -/
theorem claim6_nonmatching_lines :
    (∀ (names : List Str) (st : ParseState) (line0 : Str),
      strip (bomStrip line0) ≠ [] →
      names.find? (fun s => (s ++ [':']).isPrefixOf (strip (bomStrip line0))) = none →
      (truthy st.cur = true →
        processLine names st line0
          = ⟨st.dialogue, st.cur, st.txt ++ ' ' :: strip (bomStrip line0)⟩)
      ∧ (truthy st.cur = false →
        processLine names st line0
          = ⟨st.dialogue, some (names.headD []), strip (bomStrip line0)⟩))
    ∧ (∀ (lines : List Str) (l : Str),
        l ∈ lines → skipsLine l = false → ':' ∉ l →
        make_casts lines = none) := by
  constructor
  · intro names st line0 hne hnm
    constructor
    · intro ht
      simp only [processLine, if_neg hne, hnm, ht]
      rfl
    · intro ht
      simp only [processLine, if_neg hne, hnm, ht]
      rfl
  · intro lines l hl hskip hcolon
    exact foldl_makeCastsStep_bad_line lines (some ([], [])) l hl hskip hcolon

/-- Witness for C6: appending `"more"` to the open `Ann` utterance in strict
mode, and a colon-free line failing `make_casts` in simple mode. -/
theorem claim6_witness :
    processLine ["Ann".toList] ⟨[], some ("Ann".toList), "hi".toList⟩ ("more".toList)
      = ⟨[], some ("Ann".toList), "hi".toList ++ ' ' :: strip (bomStrip ("more".toList))⟩
    ∧ make_casts ["Ann: hi\n".toList, "oops\n".toList] = none := by
  constructor
  · exact (claim6_nonmatching_lines.1 ["Ann".toList]
      ⟨[], some ("Ann".toList), "hi".toList⟩ ("more".toList)
      (by decide) (by decide)).1 (by decide)
  · exact claim6_nonmatching_lines.2 ["Ann: hi\n".toList, "oops\n".toList]
      ("oops\n".toList) (by decide) (by decide) (by decide)

/-- C7 (counterexample): in strict mode a `#` comment line is not skipped —
it is appended to the open utterance, so the parsed dialogue contains the
comment text.  (`read_text_file` only skips lines that are empty after
stripping; it has no `#`/`[` handling at all.) -/
theorem claim7_counterexample :
    read_text_file ["Ann".toList] ["Ann: hi".toList, "# note".toList]
      = [⟨"hi # note".toList, "Ann".toList⟩] := by
  rfl

/-- C7 (amended): blank lines are skipped in both modes (simple mode skips
lines starting with a newline, i.e. empty physical lines; strict mode skips
lines that are empty after stripping, including whitespace-only lines);
lines starting with `#` or `[` are skipped in **simple mode only** — strict
mode treats them as ordinary non-matching content lines. -/
theorem claim7_amended :
    (∀ (pre post : List Str) (l : Str), skipsLine l = true →
      make_casts (pre ++ l :: post) = make_casts (pre ++ post))
    ∧ (∀ (names : List Str) (st : ParseState) (line0 : Str),
        strip (bomStrip line0) = [] → processLine names st line0 = st) := by
  constructor
  · intro pre post l hl
    rw [make_casts, make_casts, List.foldl_append, List.foldl_append,
      List.foldl_cons, makeCastsStep_skip hl]
  · intro names st line0 h
    simp only [processLine, h]
    rfl

/-- Witness for C7's amended statement: a `#` line is dropped by
`make_casts`, and a whitespace-only line leaves the strict parser state
unchanged. -/
theorem claim7_witness :
    make_casts (["# note\n".toList] ++ ["Ann: hi\n".toList])
      = make_casts ([] ++ ["Ann: hi\n".toList])
    ∧ processLine ["Ann".toList] ⟨[], none, []⟩ ("   ".toList) = ⟨[], none, []⟩ := by
  constructor
  · exact claim7_amended.1 [] ["Ann: hi\n".toList] ("# note\n".toList) (by decide)
  · exact claim7_amended.2 ["Ann".toList] ⟨[], none, []⟩ ("   ".toList) (by decide)

/-- C8 (counterexample): an `app2.py` run over one utterance persists its
chunk as `audio_chunk_001.mp3` — not `audio_chunk_000.mp3` as the claim's
0-based naming requires (`enumerate(..., start=1)`). -/
theorem claim8_counterexample :
    generate_audio (fun _ => some [3]) [("Ann".toList, "alloy".toList)]
      [⟨"hi".toList, "Ann".toList⟩] []
      = .ok ([(chunkName 1, [3]), (combinedName 2, [3])], combinedName 2) := by
  rfl

/-- C8 (amended): in the `11labs.py` pipeline a successful run persists the
chunk for the utterance at 0-based position `i` under
`audio_chunk_<i zero-padded to 3 digits>.mp3`; in the `app2.py` pipeline the
item at 0-based position `p` is persisted under index `p + 1` (its
`enumerate` starts at 1), and `audio_chunk_000.mp3` is never written. -/
theorem claim8_amended
    (tts ttsA : Nat → Option (List Nat)) (vd m0 sv : List (Str × Str))
    (casts voices : List Str) (transcript : List Utterance)
    (dialogue : List DialogueItem) (dir0 dir0A : Dir) (bs bsA : Nat → List Nat)
    (htr : transcript ≠ [])
    (hc2v : assignVoices m0 casts voices ≠ [])
    (hres : ∀ j, j < transcript.length →
      resolvesB (assignVoices m0 casts voices) vd (transcript.getD j ⟨[], [], []⟩) = true)
    (htts : ∀ j, j < transcript.length → tts j = some (bs j))
    (hresA : ∀ j, j < dialogue.length →
      (dictLookup sv (dialogue.getD j ⟨[], []⟩).speaker).isSome = true)
    (httsA : ∀ j, j < dialogue.length → ttsA j = some (bsA j)) :
    (∃ dirF fname, generate tts vd m0 casts voices transcript dir0 = .ok (dirF, fname)
      ∧ ∀ j, j < transcript.length → dictLookup dirF (chunkName j) = some (bs j))
    ∧ (∃ dirF fname, generate_audio ttsA sv dialogue dir0A = .ok (dirF, fname)
      ∧ (∀ p, p < dialogue.length →
          dictLookup dirF (chunkName (p + 1)) = some (bsA p))
      ∧ dictLookup dirF (chunkName 0) = dictLookup dir0A (chunkName 0)) := by
  constructor
  · refine ⟨_, _, generate_ok_char dir0 bs htr hc2v hres htts, ?_⟩
    intro j hj
    rw [dictLookup_update_ne _ _ (fun hq => chunkName_ne_resultName hq.symm)]
    have := writesFrom_lookup_chunk bs transcript.length 0 dir0 (j := j) hj
    simpa using this
  · refine ⟨_, _, generate_audio_ok_char dir0A bsA hresA httsA, ?_, ?_⟩
    · intro p hp
      rw [dictLookup_update_ne _ _ (fun hq => chunkName_ne_combinedName hq.symm)]
      have := writesFromA_lookup_chunk bsA dialogue.length 0 dir0A (j := p) hp
      rw [show p + 1 = 1 + p by omega]
      simpa using this
    · rw [dictLookup_update_ne _ _ (fun hq => chunkName_ne_combinedName hq.symm)]
      exact writesFromA_lookup_other bsA dialogue.length 0 dir0A
        (fun j h1 h2 hq => by
          have := chunkName_inj hq
          omega)

/-- Witness for C8's amended statement, on a one-utterance run in each
pipeline. -/
theorem claim8_witness :
    (∃ dirF fname,
      generate (fun _ => some [7]) [("v".toList, "id".toList)] []
        ["Ann".toList] ["v".toList] [⟨"Ann".toList, "hi".toList, []⟩] []
        = .ok (dirF, fname)
      ∧ ∀ j, j < 1 → dictLookup dirF (chunkName j) = some [7])
    ∧ (∃ dirF fname,
      generate_audio (fun _ => some [3]) [("Ann".toList, "alloy".toList)]
        [⟨"hi".toList, "Ann".toList⟩] []
        = .ok (dirF, fname)
      ∧ (∀ p, p < 1 → dictLookup dirF (chunkName (p + 1)) = some [3])
      ∧ dictLookup dirF (chunkName 0) = dictLookup ([] : Dir) (chunkName 0)) :=
  claim8_amended (fun _ => some [7]) (fun _ => some [3])
    [("v".toList, "id".toList)] [] [("Ann".toList, "alloy".toList)]
    ["Ann".toList] ["v".toList] [⟨"Ann".toList, "hi".toList, []⟩]
    [⟨"hi".toList, "Ann".toList⟩] [] [] (fun _ => [7]) (fun _ => [3])
    (by decide) (by decide) (by decide) (fun j hj => rfl) (by decide) (fun j hj => rfl)

/-- The (global, never-cleared) `cast_to_voice` dict after a run's assignment
loop keeps every entry whose speaker is not in the current cast. -/
theorem assignVoices_lookup_not_mem :
    ∀ (casts voices : List Str) (m : List (Str × Str)) (k : Str), k ∉ casts →
      dictLookup (assignVoices m casts voices) k = dictLookup m k := by
  intro casts
  induction casts with
  | nil => intro voices m k _; rfl
  | cons c cs ih =>
    intro voices m k hk
    cases voices with
    | nil => rfl
    | cons v vs =>
      have hck : c ≠ k := fun hq => hk (hq ▸ List.mem_cons_self c cs)
      show dictLookup (assignVoices (dictUpdate m c v) cs vs) k = dictLookup m k
      rw [ih vs (dictUpdate m c v) k (fun hq => hk (List.mem_cons_of_mem c hq)),
        dictLookup_update_ne _ _ hck]

/-- C9 (counterexample): `cast_to_voice` persists across runs.  After a first
run assigns `Ann ↦ v1` and a second run (cast `[Bob]`) assigns `Bob ↦ v2`,
the mapping used by the second run still contains the first run's `Ann`
entry. -/
theorem claim9_counterexample :
    assignVoices (assignVoices [] ["Ann".toList] ["v1".toList])
        ["Bob".toList] ["v2".toList]
      = [("Ann".toList, "v1".toList), ("Bob".toList, "v2".toList)]
    ∧ dictLookup (assignVoices (assignVoices [] ["Ann".toList] ["v1".toList])
        ["Bob".toList] ["v2".toList]) ("Ann".toList)
      = some ("v1".toList) := by
  constructor
  · rfl
  · rfl

/-- C9 (amended): the voice-assignment dict is module-global and never
cleared: a run's assignment loop overwrites the entries of its own cast
members (each current cast member maps to the voice supplied at its position
this run), while every entry for a speaker not in the current cast — in
particular the previous run's entries — is carried over unchanged. -/
theorem claim9_amended :
    (∀ (m : List (Str × Str)) (casts voices : List Str) (k : Str), k ∉ casts →
      dictLookup (assignVoices m casts voices) k = dictLookup m k)
    ∧ (∀ (casts : List Str), casts.Nodup →
        ∀ (voices : List Str) (m : List (Str × Str)) (i : Nat),
        casts.length = voices.length → i < casts.length →
        dictLookup (assignVoices m casts voices) (casts.getD i [])
          = some (voices.getD i [])) := by
  constructor
  · intro m casts voices k hk
    exact assignVoices_lookup_not_mem casts voices m k hk
  · intro casts
    induction casts with
    | nil =>
      intro _ voices m i _ hi
      simp at hi
    | cons c cs ih =>
      intro hnd voices m i hlen hi
      cases voices with
      | nil => simp at hlen
      | cons v vs =>
        cases i with
        | zero =>
          rw [List.getD_cons_zero, List.getD_cons_zero]
          show dictLookup (assignVoices (dictUpdate m c v) cs vs) c = some v
          rw [assignVoices_lookup_not_mem cs vs (dictUpdate m c v) c
            (List.Nodup.not_mem hnd), dictLookup_update]
        | succ i =>
          rw [List.getD_cons_succ, List.getD_cons_succ]
          exact ih (List.Nodup.of_cons hnd) vs (dictUpdate m c v) i
            (by simpa using hlen) (by simpa using Nat.lt_of_succ_lt_succ hi)

/-- Witness for C9's amended statement: the stale `Ann` entry survives the
second run, and the second run's own cast member `Bob` is freshly mapped. -/
theorem claim9_witness :
    dictLookup (assignVoices (assignVoices [] ["Ann".toList] ["v1".toList])
        ["Bob".toList] ["v2".toList]) ("Ann".toList)
      = dictLookup (assignVoices [] ["Ann".toList] ["v1".toList]) ("Ann".toList)
    ∧ dictLookup (assignVoices (assignVoices [] ["Ann".toList] ["v1".toList])
        ["Bob".toList] ["v2".toList]) (["Bob".toList].getD 0 [])
      = some (["v2".toList].getD 0 []) := by
  constructor
  · exact claim9_amended.1 (assignVoices [] ["Ann".toList] ["v1".toList])
      ["Bob".toList] ["v2".toList] ("Ann".toList) (by decide)
  · exact claim9_amended.2 ["Bob".toList] (by decide) ["v2".toList]
      (assignVoices [] ["Ann".toList] ["v1".toList]) 0 (by decide) (by decide)

/-! ## The strict parser only emits fully non-empty utterances (C10) -/

theorem truthy_some {t : Str} (h : truthy (some t) = true) : t ≠ [] := by
  rw [truthy] at h
  simpa using h

theorem emitOpen_good {st : ParseState}
    (h1 : st.txt ≠ [] → strip st.txt ≠ [])
    (h2 : ∀ d ∈ st.dialogue, d.speaker ≠ [] ∧ d.text ≠ []) :
    ∀ d ∈ emitOpen st, d.speaker ≠ [] ∧ d.text ≠ [] := by
  intro d hd
  rw [emitOpen] at hd
  split at hd
  · next hcond =>
    rcases List.mem_append.mp hd with h | h
    · exact h2 d h
    · simp only [List.mem_singleton] at h
      subst h
      refine ⟨?_, h1 hcond.2⟩
      cases hc : st.cur with
      | none => rw [hc] at hcond; simp [truthy] at hcond
      | some t =>
        rw [hc] at hcond
        simpa using truthy_some hcond.1
  · exact h2 d hd

theorem processLine_good (names : List Str) (st : ParseState) (line0 : Str)
    (h1 : st.txt ≠ [] → strip st.txt ≠ [])
    (h2 : ∀ d ∈ st.dialogue, d.speaker ≠ [] ∧ d.text ≠ []) :
    ((processLine names st line0).txt ≠ [] → strip (processLine names st line0).txt ≠ [])
    ∧ ∀ d ∈ (processLine names st line0).dialogue, d.speaker ≠ [] ∧ d.text ≠ [] := by
  rw [processLine]
  by_cases hline : strip (bomStrip line0) = []
  · rw [if_pos hline]
    exact ⟨h1, h2⟩
  · rw [if_neg hline]
    cases hf : (names.find? (fun s => (s ++ [':']).isPrefixOf (strip (bomStrip line0)))) with
    | some sp =>
      refine ⟨fun _ => ?_, emitOpen_good h1 h2⟩
      show strip (strip ((strip (bomStrip line0)).drop (sp.length + 1))) ≠ []
      rw [strip_idem]
      assumption
    | none =>
      by_cases ht : truthy st.cur = true
      · rw [if_pos ht]
        refine ⟨fun _ => ?_, h2⟩

        exact strip_append_ne_nil (strip_idem (s := bomStrip line0)) hline
      · rw [if_neg ht]
        refine ⟨fun _ => ?_, h2⟩
        show strip (strip (bomStrip line0)) ≠ []
        rw [strip_idem]
        exact hline

theorem foldl_processLine_good (names : List Str) :
    ∀ (lines : List Str) (st : ParseState),
      (st.txt ≠ [] → strip st.txt ≠ []) →
      (∀ d ∈ st.dialogue, d.speaker ≠ [] ∧ d.text ≠ []) →
      ((lines.foldl (processLine names) st).txt ≠ [] →
        strip (lines.foldl (processLine names) st).txt ≠ [])
      ∧ ∀ d ∈ (lines.foldl (processLine names) st).dialogue,
          d.speaker ≠ [] ∧ d.text ≠ [] := by
  intro lines
  induction lines with
  | nil => intro st h1 h2; exact ⟨h1, h2⟩
  | cons a rest ih =>
    intro st h1 h2
    rw [List.foldl_cons]
    have hg := processLine_good names st a h1 h2
    exact ih (processLine names st a) hg.1 hg.2

/-- C10: In strict-mode parsing an utterance is emitted only when both its
speaker and its accumulated text are non-empty: every emitted `DialogueItem`
has a non-empty speaker and non-empty text, and a speaker-tagged line whose
text after the `':'` is empty and that gains no continuation lines produces
no `DialogueItem` at all — appending such a line to a script leaves the
parse result unchanged (silently dropped, not emitted empty and not an
error). -/
theorem claim10_nonempty_emission :
    (∀ (names lines : List Str), ∀ d ∈ read_text_file names lines,
      d.speaker ≠ [] ∧ d.text ≠ [])
    ∧ (∀ (names pre : List Str) (s : Str),
        names.find? (fun t => (t ++ [':']).isPrefixOf (s ++ [':'])) = some s →
        strip (bomStrip (s ++ [':'])) = s ++ [':'] →
        read_text_file names (pre ++ [s ++ [':']]) = read_text_file names pre) := by
  constructor
  · intro names lines d hd
    rw [read_text_file] at hd
    have hg := foldl_processLine_good names lines ⟨[], none, []⟩
      (fun h => absurd rfl h) (fun d hd => by simp at hd)
    exact emitOpen_good hg.1 hg.2 d hd
  · intro names pre s hfind hstr
    rw [read_text_file, read_text_file, List.foldl_append, List.foldl_cons, List.foldl_nil]
    have hne : s ++ [':'] ≠ [] := by simp
    have hstep : processLine names (pre.foldl (processLine names) ⟨[], none, []⟩) (s ++ [':'])
        = ⟨emitOpen (pre.foldl (processLine names) ⟨[], none, []⟩), some s, []⟩ := by
      rw [processLine]
      rw [hstr, if_neg hne, hfind]
      have hdrop : (s ++ [':']).drop (s.length + 1) = [] := by
        have hl : (s ++ [':']).length = s.length + 1 := by simp
        rw [← hl, List.drop_length]
      have hred : (⟨emitOpen (pre.foldl (processLine names) ⟨[], none, []⟩), some s,
          strip ((s ++ [':']).drop (s.length + 1))⟩ : ParseState)
          = ⟨emitOpen (pre.foldl (processLine names) ⟨[], none, []⟩), some s, []⟩ := by
        rw [hdrop]
        rfl
      exact hred
    rw [hstep, emitOpen]
    rw [if_neg (by simp)]

/-- Witness for C10: the only emitted item of `"Ann: hi"` is fully
non-empty, and appending the empty-texted line `"Ann:"` to that script
changes nothing. -/
theorem claim10_witness :
    (⟨"hi".toList, "Ann".toList⟩ : DialogueItem).speaker ≠ []
    ∧ (⟨"hi".toList, "Ann".toList⟩ : DialogueItem).text ≠ []
    ∧ read_text_file ["Ann".toList] (["Ann: hi".toList] ++ ["Ann".toList ++ [':']])
        = read_text_file ["Ann".toList] ["Ann: hi".toList] := by
  have h1 := claim10_nonempty_emission.1 ["Ann".toList] ["Ann: hi".toList]
    ⟨"hi".toList, "Ann".toList⟩ (by decide)
  exact ⟨h1.1, h1.2,
    claim10_nonempty_emission.2 ["Ann".toList] ["Ann: hi".toList] ("Ann".toList)
      (by decide) (by decide)⟩

end PDF2A
